import Mathlib

/-!
# mne-cpp: the BabyMEG command queue and parameter parser, the SSP projector
# interface, the noise-estimation plugin and the browser log

A shallow embedding of
* `BabyMEGInfo::EnQueue` / `BabyMEGInfo::DeQueue` (babymeginfo.cpp),
* `FiffInfo::make_projector_info` (fiff_info.h),
* `NoiseEstimate::update`, `appendNoiseSpectrum` and `run` (noiseestimate.cpp),
* `BabyMEGInfo::MGH_LM_Get_Field`, `MGH_LM_Exact_Single_Channel_Info`,
  `MGH_LM_Get_Channel_Info` and `MGH_LM_Parse_Para` (babymeginfo.cpp),
* `MainWindow::writeToLog` (mainwindow.cpp).

`QByteArray` payloads and matrix coefficients are only moved around by this
code, never computed with, so they are type parameters.
-/

namespace BabyMEGInfo

/-- The queue members of `BabyMEGInfo` (`g_maxlen`, `g_queue`) together with the
callers parked on the two wait conditions `g_queueNotFull` and
`g_queueNotEmpty`.  A caller inside `QWaitCondition::wait` is either still
waiting or has been woken by `wakeAll` and has yet to re-acquire `g_mutex`.
`returned` is the log of what `DeQueue` handed back, oldest first; `none`
records a `g_queue.dequeue()` executed on an empty queue. -/
structure Queue (α : Type) where
  g_maxlen : Nat
  g_queue : List α
  notFullWaiting : List α
  notFullWoken : List α
  notEmptyWaiting : Nat
  notEmptyWoken : Nat
  returned : List (Option α)
deriving DecidableEq, Repr

/-- The constructor `BabyMEGInfo::BabyMEGInfo() : g_maxlen(500)`; the queue
starts empty and nobody waits. -/
def Queue.new (α : Type) : Queue α :=
  { g_maxlen := 500, g_queue := [], notFullWaiting := [], notFullWoken := [],
    notEmptyWaiting := 0, notEmptyWoken := 0, returned := [] }

/-- The lines of `EnQueue` after the `if`: `g_queue.enqueue(DataIn);
g_queueNotEmpty.wakeAll(); g_mutex.unlock();`. -/
def EnQueue_tail {α : Type} (s : Queue α) (DataIn : α) : Queue α :=
  { s with
    g_queue := s.g_queue ++ [DataIn]
    notEmptyWaiting := 0
    notEmptyWoken := s.notEmptyWoken + s.notEmptyWaiting }

/-- A call of `EnQueue(DataIn)` up to its first suspension point:
`g_mutex.lock(); if (g_queue.size() == g_maxlen) g_queueNotFull.wait(&g_mutex);`
parks the caller, otherwise the call runs to its end. -/
def EnQueue {α : Type} (s : Queue α) (DataIn : α) : Queue α :=
  if s.g_queue.length = s.g_maxlen then
    { s with notFullWaiting := s.notFullWaiting ++ [DataIn] }
  else
    EnQueue_tail s DataIn

/-- The lines of `DeQueue` after the `if`: `val = g_queue.dequeue();
g_queueNotFull.wakeAll(); return val;`.  The source does not test the queue
again here. -/
def DeQueue_tail {α : Type} (s : Queue α) : Queue α :=
  { s with
    g_queue := s.g_queue.tail
    returned := s.returned ++ [s.g_queue.head?]
    notFullWaiting := []
    notFullWoken := s.notFullWoken ++ s.notFullWaiting }

/-- A call of `DeQueue()` up to its first suspension point:
`if (g_queue.isEmpty()) g_queueNotEmpty.wait(&g_mutex);` parks the caller,
otherwise the call runs to its end. -/
def DeQueue {α : Type} (s : Queue α) : Queue α :=
  if s.g_queue.isEmpty then
    { s with notEmptyWaiting := s.notEmptyWaiting + 1 }
  else
    DeQueue_tail s

/-- What can happen next to the queue: a thread calls `EnQueue` or `DeQueue`,
or a caller woken inside `wait` gets the mutex back and continues behind the
`if`. -/
inductive Event (α : Type) where
  | callEnQueue (DataIn : α)
  | callDeQueue
  | resumeEnQueue (i : Nat)
  | resumeDeQueue
deriving DecidableEq, Repr

/-- One scheduling step.  Every access to `g_queue` happens with `g_mutex`
held, so the segments between suspension points are atomic.  A resume event
with no woken caller to resume is not enabled and leaves the state alone. -/
def step {α : Type} (s : Queue α) : Event α → Queue α
  | .callEnQueue DataIn => EnQueue s DataIn
  | .callDeQueue => DeQueue s
  | .resumeEnQueue i =>
      match s.notFullWoken[i]? with
      | some DataIn => EnQueue_tail { s with notFullWoken := s.notFullWoken.eraseIdx i } DataIn
      | none => s
  | .resumeDeQueue =>
      if 0 < s.notEmptyWoken then
        DeQueue_tail { s with notEmptyWoken := s.notEmptyWoken - 1 }
      else s

/-- The state after a whole interleaving, starting from `s`. -/
def exec {α : Type} (s : Queue α) (evs : List (Event α)) : Queue α :=
  evs.foldl step s

/-- Nobody is suspended inside `EnQueue` or `DeQueue`. -/
def Queue.quiescent {α : Type} (s : Queue α) : Prop :=
  s.notFullWaiting = [] ∧ s.notFullWoken = [] ∧ s.notEmptyWaiting = 0 ∧ s.notEmptyWoken = 0

/-- The calling discipline of one producer thread and one consumer thread: a
new `EnQueue` call starts only when no earlier `EnQueue` call is still
suspended, and likewise for `DeQueue`. -/
def Event.singleCaller {α : Type} (s : Queue α) : Event α → Prop
  | .callEnQueue _ => s.notFullWaiting = [] ∧ s.notFullWoken = []
  | .callDeQueue => s.notEmptyWaiting = 0 ∧ s.notEmptyWoken = 0
  | .resumeEnQueue _ => True
  | .resumeDeQueue => True

/-- An interleaving in which every event respects `Event.singleCaller`. -/
def SingleProducerConsumer {α : Type} (s : Queue α) : List (Event α) → Prop
  | [] => True
  | e :: es => e.singleCaller s ∧ SingleProducerConsumer (step s e) es

/-- The interleaving with two producers: 500 items fill the queue, two more
`EnQueue` calls wait on `g_queueNotFull`, one `DeQueue` wakes both, and both
continue behind the `if`. -/
def twoProducers : List (Event Nat) :=
  (List.replicate 500 0).map .callEnQueue ++
    [.callEnQueue 1, .callEnQueue 2, .callDeQueue, .resumeEnQueue 0, .resumeEnQueue 0]

/-- The interleaving with two consumers: two `DeQueue` calls wait on
`g_queueNotEmpty`, one `EnQueue` wakes both, and both continue behind the
`if`. -/
def twoConsumers : List (Event Nat) :=
  [.callDeQueue, .callDeQueue, .callEnQueue 7, .resumeDeQueue, .resumeDeQueue]

/-- The invariant kept by the queue under the one-producer, one-consumer
discipline. -/
def Queue.Safe {α : Type} (s : Queue α) : Prop :=
  0 < s.g_maxlen ∧ s.g_queue.length ≤ s.g_maxlen ∧
  s.notFullWaiting.length + s.notFullWoken.length ≤ 1 ∧
  (s.notFullWoken ≠ [] → s.g_queue.length < s.g_maxlen) ∧
  s.notEmptyWaiting + s.notEmptyWoken ≤ 1 ∧
  (0 < s.notEmptyWoken → s.g_queue ≠ []) ∧
  (∀ r ∈ s.returned, r ≠ none)

end BabyMEGInfo

/-- Eigen's dense dynamic matrix (`MatrixXf`, `MatrixXd`): `rows` and `cols`
and the coefficients in Eigen's default column-major order, one inner list per
column. -/
structure MatrixX (α : Type) where
  rows : Nat
  cols : Nat
  coeff : List (List α)
deriving DecidableEq, Repr

namespace MatrixX

/-- The matrix whose coefficient in row `i`, column `j` is `f i j`. -/
def ofFn {α : Type} (rows cols : Nat) (f : Nat → Nat → α) : MatrixX α :=
  { rows := rows, cols := cols,
    coeff := (List.range cols).map fun j => (List.range rows).map fun i => f i j }

/-- Column `j`, as `m.col(j)`. -/
def col {α : Type} (m : MatrixX α) (j : Nat) : Option (List α) := m.coeff[j]?

/-- The identity matrix `MatrixXf::Identity(n, n)`. -/
def Identity (n : Nat) : MatrixX ℚ := ofFn n n fun i j => if i = j then 1 else 0

end MatrixX

namespace FIFFLIB

/-- Modelled from the spec: `FiffProj` (fiff_proj.h is not among the sources),
the spec's ProjectionVector "{name, list of (channel-name, weight) pairs,
active flag}". -/
structure FiffProj where
  desc : String := ""
  active : Bool := true
  data : List (String × ℚ) := []
deriving DecidableEq, Repr

/-- The members of `FiffChInfo` that `BabyMEGInfo::MGH_LM_Parse_Para` assigns
(fiff_ch_info.h is not among the sources); `loc` is the 12 x 1 matrix. -/
structure FiffChInfo where
  ch_name : String := ""
  scanno : Int := 0
  logno : Int := 0
  cal : ℚ := 0
  unit_mul : Int := 0
  range : ℚ := 0
  loc : List ℚ := []
  kind : Int := 0
  unit : Int := 0
  coil_type : Int := 0
deriving DecidableEq, Repr

/-- The members of `FiffInfo` (fiff_info.h) that `make_projector_info` reads
and that `BabyMEGInfo::MGH_LM_Parse_Para` assigns. -/
structure FiffInfo where
  nchan : Int := 0
  ch_names : List String := []
  bads : List String := []
  projs : List FiffProj := []
  file_id_version : Int := 0
  meas_id_version : Int := 0
  meas_date : Int × Int := (0, 0)
  sfreq : ℚ := 0
  highpass : ℚ := 0
  lowpass : ℚ := 0
  chs : List FiffChInfo := []
  acq_pars : String := ""
  acq_stim : String := ""
  filename : String := ""
deriving DecidableEq, Repr

/-- Modelled from the spec: step 2 of ProjectorBuilder, "the good channel
subset (channels in channelNames minus badChannels)". -/
def goodChannels (ch_names bads : List String) : List String :=
  ch_names.filter fun c => !bads.contains c

/-- Modelled from the spec: step 2, "build a coefficient row over the good
channel subset, mapping by name"; a good channel the vector does not name gets
weight 0. -/
def coefficientRow (good : List String) (p : FiffProj) : List ℚ :=
  good.map fun c => (p.data.lookup c).getD 0

/-- Modelled from the spec: step 2, "vectors referencing only bad/absent
channels contribute nothing". -/
def referencesGood (good : List String) (p : FiffProj) : Bool :=
  p.data.any fun cw => good.contains cw.1

/-- Modelled from the spec: steps 1 to 3, the matrix `V` of the surviving
coefficient rows of the active vectors (rows = vectors, columns = good
channels). -/
def stackedRows (projs : List FiffProj) (good : List String) : List (List ℚ) :=
  ((projs.filter fun p => p.active).filter (referencesGood good)).map (coefficientRow good)

/-- Modelled from the spec: step 4, the singular vectors kept, those "whose
singular value exceeds a small relative tolerance", relative "to the largest
singular value".  `sv` is the decomposition of `V` as pairs of a singular
value and its right singular vector. -/
def retained (tol : ℚ) (sv : List (ℚ × List ℚ)) : List (List ℚ) :=
  (sv.filter fun p => decide (tol * (sv.map Prod.fst).foldl max 0 < p.1)).map Prod.snd

/-- Modelled from the spec: step 5, `P = I − U·Uᵗ` sized to `n`, the columns of
`U` being the vectors `us`. -/
def complementProjector (n : Nat) (us : List (List ℚ)) : MatrixX ℚ :=
  MatrixX.ofFn n n fun i j =>
    (if i = j then 1 else 0) - (us.map fun u => u.getD i 0 * u.getD j 0).sum

/-- Modelled from the spec: `FiffInfo::make_projector`, declared in
fiff_info.h with its body in a source file that is not among the sources.
This is ProjectorBuilder `build(vectors, channelNames, badChannels) →
(projector, rank)`, steps 1 to 6 of the spec.  The singular value
decomposition `svd` is the numerical library's and the tolerance `tol` is
configuration; both are parameters, and a decomposition that fails to
converge is not modelled.  The result is the projector `proj` and the returned
count. -/
def make_projector (svd : List (List ℚ) → List (ℚ × List ℚ)) (tol : ℚ)
    (projs : List FiffProj) (ch_names bads : List String) : MatrixX ℚ × Int :=
  let good := goodChannels ch_names bads
  let U := retained tol (svd (stackedRows projs good))
  if U.length = 0 then (MatrixX.Identity good.length, 0)
  else (complementProjector good.length U, U.length)

/-- The member `FiffInfo::make_projector_info(MatrixXf& proj)`:
`return make_projector(this->projs, this->ch_names, proj, this->bads);`.  The
object is passed through, as the call leaves it. -/
def FiffInfo.make_projector_info (svd : List (List ℚ) → List (ℚ × List ℚ)) (tol : ℚ)
    (info : FiffInfo) : FiffInfo × MatrixX ℚ × Int :=
  (info, make_projector svd tol info.projs info.ch_names info.bads)

/-- The static `FiffInfo::make_projector_info(FiffInfo* info, MatrixXf& proj)`:
`return info->make_projector_info(proj);`. -/
def make_projector_info (svd : List (List ℚ) → List (ℚ × List ℚ)) (tol : ℚ)
    (info : FiffInfo) : FiffInfo × MatrixX ℚ × Int :=
  info.make_projector_info svd tol

end FIFFLIB

namespace MatrixX

/-- The declaration `MatrixXd t_mat(rows, cols)`: the coefficients are not
initialised; `fill` stands for whatever the memory holds. -/
def uninitialized {α : Type} (rows cols : Nat) (fill : α) : MatrixX α :=
  ofFn rows cols fun _ _ => fill

/-- The assignment `m.col(j) = v`: Eigen requires `j < cols` and a vector of
`rows` coefficients (a column of a matrix is not resized); otherwise the
assignment is undefined. -/
def setCol {α : Type} (m : MatrixX α) (j : Nat) (v : List α) : Option (MatrixX α) :=
  if j < m.cols ∧ v.length = m.rows then some { m with coeff := m.coeff.set j v } else none

end MatrixX

namespace NoiseEstimatePlugin

open FIFFLIB

/-- What `NoiseEstimate::update` reads of a `NewRealTimeMultiSampleArray`
(the class is not among the sources): `getNumChannels()`,
`getMultiArraySize()`, `getMultiSampleArray()` and `info()`. -/
structure NewRealTimeMultiSampleArray (α : Type) where
  getNumChannels : Nat
  getMultiArraySize : Nat
  getMultiSampleArray : List (List α)
  info : FiffInfo
deriving DecidableEq, Repr

/-- A `NewMeasurement::SPtr` as `update` sees it: the `dynamicCast` to
`NewRealTimeMultiSampleArray` succeeds or gives null. -/
inductive NewMeasurement (α : Type) where
  | rtmsa (pRTMSA : NewRealTimeMultiSampleArray α)
  | other
deriving DecidableEq, Repr

/-- Modelled from the spec: `CircularMatrixBuffer<double>` (not among the
sources), the spec's BoundedSampleBuffer: a FIFO queue of blocks with a
capacity fixed at construction, stored "opaquely" with "no validation";
`released` records `releaseFromPop()` / `releaseFromPush()`. -/
structure CircularMatrixBuffer (α : Type) where
  capacity : Nat
  rows : Nat
  cols : Nat
  blocks : List (MatrixX α) := []
  released : Bool := false
deriving DecidableEq, Repr

/-- Modelled from the spec: "`push(block)` blocks the caller while the queue is
at capacity" (`none`), unless the buffer was released, in which case the call
comes back without storing the block. -/
def CircularMatrixBuffer.push {α : Type} (b : CircularMatrixBuffer α) (m : MatrixX α) :
    Option (CircularMatrixBuffer α) :=
  if b.blocks.length < b.capacity then some { b with blocks := b.blocks ++ [m] }
  else if b.released then some b
  else none

/-- Modelled from the spec: "`pop()` blocks the caller while the queue is
empty" (`none`), unless the buffer was released, in which case the call comes
back with a block of stale memory; otherwise the oldest block is handed over. -/
def CircularMatrixBuffer.pop {α : Type} (fill : α) (b : CircularMatrixBuffer α) :
    Option (MatrixX α × CircularMatrixBuffer α) :=
  match b.blocks with
  | m :: rest => some (m, { b with blocks := rest })
  | [] => if b.released then some (MatrixX.uninitialized b.rows b.cols fill, b) else none

/-- Modelled from the spec: the estimator `RtNoise` (not among the sources) as
the plugin drives it: constructed with the window length and the channel
metadata, started, fed blocks with `append`, stopped. -/
structure RtNoise (α : Type) where
  fftLength : Int
  info : FiffInfo
  running : Bool := false
  received : List (MatrixX α) := []
deriving DecidableEq, Repr

/-- Where the worker thread stands in `NoiseEstimate::run()`. -/
inductive Pc where
  | notRunning
  | fiffWait
  | enable
  | loopTest
  | pop
  | sizeTest
  | publish
deriving DecidableEq, Repr

/-- The members of `NoiseEstimate` the embedded methods touch, the position of
the worker thread in `run()`, and three logs: how often `fiffInfoAvailable` was
emitted, the spectra handed to `appendNoiseSpectrum` (`appended`) and the
spectra handed to `m_pFSOutput->data()->setValue` (`published`), oldest
first. -/
structure NoiseEstimate (α : Type) where
  m_bIsRunning : Bool := false
  m_bProcessData : Bool := false
  m_pBuffer : Option (CircularMatrixBuffer α) := none
  m_pFiffInfo : Option FiffInfo := none
  m_Fs : Nat := 600
  m_iFFTlength : Int := 16384
  m_pRtNoise : Option (RtNoise α) := none
  m_qVecSpecData : List (MatrixX α) := []
  pc : Pc := .notRunning
  fiffInfoAvailable : Nat := 0
  appended : List (MatrixX α) := []
  published : List (MatrixX α) := []
deriving DecidableEq, Repr

/-- The constructor `NoiseEstimate::NoiseEstimate()`. -/
def NoiseEstimate.new (α : Type) : NoiseEstimate α := {}

/-- How a call ends: it returns, it is suspended inside the buffer (the state
is the one reached when the call suspends), or it is undefined (an Eigen or
`QVector` precondition is broken, a null pointer is dereferenced). -/
inductive Outcome (σ : Type) where
  | returned (s : σ)
  | suspended (s : σ)
  | undefined
deriving DecidableEq, Repr

/-- Lines 248 to 251 of `update`: `MatrixXd t_mat(getNumChannels(),
getMultiArraySize()); for (i < getMultiArraySize()) t_mat.col(i) =
getMultiSampleArray()[i];`. -/
def update_t_mat {α : Type} (fill : α) (pRTMSA : NewRealTimeMultiSampleArray α) :
    Option (MatrixX α) :=
  (List.range pRTMSA.getMultiArraySize).foldlM
    (fun t_mat i => do
      let v ← pRTMSA.getMultiSampleArray[i]?
      t_mat.setCol i v)
    (MatrixX.uninitialized pRTMSA.getNumChannels pRTMSA.getMultiArraySize fill)

/-- The statements of `update` in front of `if(m_bProcessData)`: the buffer is
created if there is none, the channel metadata is taken if there is none. -/
def update_init {α : Type} (s : NoiseEstimate α) (pRTMSA : NewRealTimeMultiSampleArray α) :
    NoiseEstimate α :=
  let s1 : NoiseEstimate α :=
    match s.m_pBuffer with
    | some _ => s
    | none =>
      { s with
        m_pBuffer := some
          { capacity := 64, rows := pRTMSA.getNumChannels, cols := pRTMSA.getMultiArraySize } }
  match s1.m_pFiffInfo with
  | some _ => s1
  | none =>
    { s1 with m_pFiffInfo := some pRTMSA.info, fiffInfoAvailable := s1.fiffInfoAvailable + 1 }

/-- The slot `NoiseEstimate::update(pMeasurement)`. -/
def update {α : Type} (fill : α) (s : NoiseEstimate α) :
    NewMeasurement α → Outcome (NoiseEstimate α)
  | .other => .returned s
  | .rtmsa pRTMSA =>
    let s2 := update_init s pRTMSA
    if s2.m_bProcessData then
      match update_t_mat fill pRTMSA, s2.m_pBuffer with
      | some t_mat, some b =>
        match b.push t_mat with
        | some b1 => .returned { s2 with m_pBuffer := some b1 }
        | none => .suspended s2
      | _, _ => .undefined
    else .returned s2

/-- The slot `NoiseEstimate::appendNoiseSpectrum(t_send)`: under `mutex`,
`m_qVecSpecData.push_back(t_send)`.  (The `qDebug` line only reads
`t_send`.) -/
def appendNoiseSpectrum {α : Type} (s : NoiseEstimate α) (t_send : MatrixX α) :
    NoiseEstimate α :=
  { s with m_qVecSpecData := s.m_qVecSpecData ++ [t_send], appended := s.appended ++ [t_send] }

/-- The method `NoiseEstimate::start()`: `if(this->isRunning()) QThread::wait();` keeps the
caller waiting while the worker is alive (`none`); then `m_bIsRunning = true`
and `QThread::start()` enters `run()`. -/
def start {α : Type} (s : NoiseEstimate α) : Option (NoiseEstimate α) :=
  if s.pc = .notRunning then some { s with m_bIsRunning := true, pc := .fiffWait } else none

/-- The method `NoiseEstimate::stop()`: `m_bIsRunning = false; m_pRtNoise->stop();` and,
`if(m_bProcessData)`, `releaseFromPop(); releaseFromPush(); clear();` on the
buffer.  Dereferencing a null `m_pRtNoise` or `m_pBuffer` is undefined
(`none`). -/
def stop {α : Type} (s : NoiseEstimate α) : Option (NoiseEstimate α) :=
  match s.m_pRtNoise with
  | none => none
  | some rt =>
    let s1 := { s with m_bIsRunning := false, m_pRtNoise := some { rt with running := false } }
    if s1.m_bProcessData then
      match s1.m_pBuffer with
      | none => none
      | some b => some { s1 with m_pBuffer := some { b with released := true, blocks := [] } }
    else some s1

/-- One step of the worker thread through `NoiseEstimate::run()`, from one
point where other threads can interleave to the next: the wait for the channel
metadata with the construction and start of the estimator, `m_bProcessData =
true`, the loop test, the `pop` with `m_pRtNoise->append`, the test of
`m_qVecSpecData.size()`, the publish block.  A step that cannot be taken yet (metadata missing, `pop` waiting on an empty buffer) leaves the state
as it is; `none` is undefined behaviour. -/
def runStep {α : Type} (fill : α) (s : NoiseEstimate α) : Option (NoiseEstimate α) :=
  match s.pc with
  | .notRunning => some s
  | .fiffWait =>
    match s.m_pFiffInfo with
    | none => some s
    | some info =>
      some { s with
        m_pRtNoise := some { fftLength := s.m_iFFTlength, info := info, running := true }
        pc := .enable }
  | .enable => some { s with m_bProcessData := true, pc := .loopTest }
  | .loopTest =>
    if s.m_bIsRunning then
      if s.m_bProcessData then some { s with pc := .pop } else some s
    else
      match s.m_pRtNoise with
      | none => none
      | some rt =>
        some { s with m_pRtNoise := some { rt with running := false }, pc := .notRunning }
  | .pop =>
    match s.m_pBuffer, s.m_pRtNoise with
    | some b, some rt =>
      match b.pop fill with
      | none => some s
      | some (t_mat, b1) =>
        some { s with
          m_pBuffer := some b1
          m_pRtNoise := some { rt with received := rt.received ++ [t_mat] }
          pc := .sizeTest }
    | _, _ => none
  | .sizeTest =>
    if 0 < s.m_qVecSpecData.length then some { s with pc := .publish }
    else some { s with pc := .loopTest }
  | .publish =>
    match s.m_qVecSpecData with
    | [] => none
    | spec :: rest =>
      some { s with
        published := s.published ++ [spec]
        m_qVecSpecData := rest
        pc := .loopTest }

/-- What can happen next to the plugin: a measurement arrives, the estimator
delivers a spectrum, the pipeline is started or stopped, the worker takes a
step. -/
inductive Event (α : Type) where
  | update (pMeasurement : NewMeasurement α)
  | appendNoiseSpectrum (t_send : MatrixX α)
  | start
  | stop
  | run
deriving DecidableEq, Repr

/-- One event.  A call that would be suspended is not taken (the caller tries
again later); `none` is undefined behaviour. -/
def step {α : Type} (fill : α) (s : NoiseEstimate α) : Event α → Option (NoiseEstimate α)
  | .update pMeasurement =>
    match update fill s pMeasurement with
    | .returned s1 => some s1
    | .suspended _ => some s
    | .undefined => none
  | .appendNoiseSpectrum t_send => some (appendNoiseSpectrum s t_send)
  | .start => some ((start s).getD s)
  | .stop => stop s
  | .run => runStep fill s

/-- The state after an interleaving, if no step of it is undefined. -/
def exec {α : Type} (fill : α) (s : NoiseEstimate α) (evs : List (Event α)) :
    Option (NoiseEstimate α) :=
  evs.foldlM (step fill) s

end NoiseEstimatePlugin

namespace NoiseEstimatePlugin

/-- A measurement of 2 channels and 3 samples. -/
def exampleMeasurement : NewRealTimeMultiSampleArray Int :=
  { getNumChannels := 2, getMultiArraySize := 3,
    getMultiSampleArray := [[1, -2], [3, -4], [5, -6]], info := { nchan := 2 } }

/-- A plugin whose worker has enabled processing, with no buffer yet. -/
def exampleProcessing : NoiseEstimate Int :=
  { NoiseEstimate.new Int with m_bIsRunning := true, m_bProcessData := true, pc := .loopTest }

end NoiseEstimatePlugin

namespace NoiseEstimatePlugin

/-- What ties the three spectrum lists together: the spectra handed in are the
published ones followed by the pending ones, and the worker stands at the
publish statement only with a pending spectrum. -/
def SpectraInOrder {α : Type} (s : NoiseEstimate α) : Prop :=
  s.appended = s.published ++ s.m_qVecSpecData ∧ (s.pc = .publish → s.m_qVecSpecData ≠ [])

/-- A spectrum of one channel and four frequency bins. -/
def exampleSpectrum : MatrixX Int := MatrixX.ofFn 1 4 fun _ j => (j : Int) + 10

/-- An interleaving that ends the `run()` loop with a spectrum pending: the
pipeline starts, the first measurement brings the channel metadata, the worker
constructs the estimator and enables processing, a second measurement is buffered, the worker pops it and
finds no spectrum pending; then the estimator delivers a spectrum, `stop()` is
called, and the worker leaves the loop. -/
def stopWithPendingSpectrum : List (Event Int) :=
  [.start, .update (.rtmsa exampleMeasurement), .run, .run,
    .update (.rtmsa exampleMeasurement), .run, .run, .run,
    .appendNoiseSpectrum exampleSpectrum, .stop, .run]

/-- An interleaving in which two spectra arrive and the worker publishes the
first of them. -/
def publishOne : List (Event Int) :=
  [.start, .update (.rtmsa exampleMeasurement), .run, .run,
    .update (.rtmsa exampleMeasurement), .appendNoiseSpectrum exampleSpectrum, .run,
    .appendNoiseSpectrum (MatrixX.ofFn 1 4 fun _ j => (j : Int) + 20), .run, .run, .run]

end NoiseEstimatePlugin

namespace NoiseEstimatePlugin

/-- The state `publishOne` leads to: the first spectrum published, the second
pending. -/
def publishOneResult : NoiseEstimate Int :=
  { m_bIsRunning := true
    m_bProcessData := true
    m_pBuffer := some { capacity := 64, rows := 2, cols := 3, blocks := [], released := false }
    m_pFiffInfo := some { nchan := 2 }
    m_pRtNoise := some
      { fftLength := 16384, info := { nchan := 2 }, running := true,
        received := [{ rows := 2, cols := 3, coeff := [[1, -2], [3, -4], [5, -6]] }] }
    m_qVecSpecData := [{ rows := 1, cols := 4, coeff := [[20], [21], [22], [23]] }]
    pc := .loopTest
    fiffInfoAvailable := 1
    appended := [{ rows := 1, cols := 4, coeff := [[10], [11], [12], [13]] },
      { rows := 1, cols := 4, coeff := [[20], [21], [22], [23]] }]
    published := [{ rows := 1, cols := 4, coeff := [[10], [11], [12], [13]] }] }

end NoiseEstimatePlugin

namespace NoiseEstimatePlugin

/-- The method `NoiseEstimate::init()`: `m_iFFTlength =
settings.value("Plugin/<name>/FFTLength", 16384).toInt()`, where `stored` is
the stored setting, if there is one; the connectors are created (they are not
part of this state); `if(!m_pBuffer.isNull()) m_pBuffer = SPtr()`. -/
def init {α : Type} (stored : Option Int) (s : NoiseEstimate α) : NoiseEstimate α :=
  { s with m_iFFTlength := stored.getD 16384, m_pBuffer := none }

/-- The value a call of `NoiseEstimate::start()` returns once it gets past
`QThread::wait()`: the only `return` statement is `return true;`. -/
def startResult {α : Type} (s : NoiseEstimate α) : Option Bool :=
  (start s).map fun _ => true

/-- The state a call ends in or is suspended in, if it is defined. -/
def Outcome.state? {σ : Type} : Outcome σ → Option σ
  | .returned s => some s
  | .suspended s => some s
  | .undefined => none

/-- The window length is a power of two. -/
def IsPowerOfTwo (n : Int) : Prop := ∃ k : Nat, n = 2 ^ k

/-- The worker thread is between the start of `run()` and the construction of
the estimator, or not running at all. -/
def Pc.beforeEstimator : Pc → Prop
  | .notRunning => True
  | .fiffWait => True
  | _ => False

/-- As long as no channel metadata has arrived, `run()` has not constructed the
estimator and has not entered its loop. -/
def WaitsForFiffInfo {α : Type} (s : NoiseEstimate α) : Prop :=
  s.m_pFiffInfo = none → s.m_pRtNoise = none ∧ s.pc.beforeEstimator

/-- An interleaving in which `stop()` is called right after `start()`, before
any measurement has arrived. -/
def stopBeforeData : List (Event Int) := [.start, .stop]

/-- An interleaving in which `stop()` is called after `run()` has constructed
the estimator and before it has set `m_bProcessData`. -/
def stopBeforeProcessing : List (Event Int) :=
  [.start, .update (.rtmsa exampleMeasurement), .run, .stop]

/-- An interleaving in which `stop()` is called while the worker is inside its
loop, about to pop. -/
def stopWhileLooping : List (Event Int) :=
  [.start, .update (.rtmsa exampleMeasurement), .run, .run, .run, .stop]

/-- A plugin in the middle of a run: estimator constructed, processing enabled,
one block queued in the buffer. -/
def exampleRunning : NoiseEstimate Int :=
  { m_bIsRunning := true
    m_bProcessData := true
    m_pBuffer := some
      { capacity := 64, rows := 2, cols := 3,
        blocks := [{ rows := 2, cols := 3, coeff := [[1, -2], [3, -4], [5, -6]] }] }
    m_pFiffInfo := some { nchan := 2 }
    m_pRtNoise := some { fftLength := 16384, info := { nchan := 2 }, running := true }
    pc := .pop
    fiffInfoAvailable := 1 }

end NoiseEstimatePlugin

namespace NoiseEstimatePlugin

/-- The blocks queued in the sample buffer; none while there is no buffer. -/
def queued {α : Type} (s : NoiseEstimate α) : List (MatrixX α) :=
  (s.m_pBuffer.map fun b => b.blocks).getD []

/-- A measurement whose blocks have another shape than `exampleMeasurement`:
3 channels and 1 sample. -/
def otherShapeMeasurement : NewRealTimeMultiSampleArray Int :=
  { getNumChannels := 3, getMultiArraySize := 1,
    getMultiSampleArray := [[7, 8, 9]], info := { nchan := 3 } }

end NoiseEstimatePlugin

namespace BabyMEGInfo

open FIFFLIB

/-- The bytes from position `pos` on, `len` of them, as `QByteArray::mid(pos,
len)` and `QString::mid`: a negative `len`, or one that reaches past the end,
gives everything from `pos` to the end. -/
def mid (s : List Char) (pos : Nat) (len : Int) : List Char :=
  if len < 0 then s.drop pos else (s.drop pos).take len.toNat

/-- The locals of `MGH_LM_Get_Field`. -/
structure FieldScan where
  Start : Bool := false
  bPos : Nat := 0
  ePos : Nat := 0
  cn : Nat := 0
deriving DecidableEq, Repr

/-- The `for` loop of `MGH_LM_Get_Field` from index `i` on: every `:` flips
`Start` and sets `bPos` or `ePos`, and the loop breaks once two were seen. -/
def scanField : List Char → Nat → FieldScan → FieldScan
  | [], _, st => st
  | c :: cs, i, st =>
    let st1 : FieldScan :=
      if c = ':' then
        if !st.Start then { st with Start := true, bPos := i, cn := st.cn + 1 }
        else { st with Start := false, ePos := i, cn := st.cn + 1 }
      else st
    if st1.cn = 2 then st1 else scanField cs (i + 1) st1

/-- The function `BabyMEGInfo::MGH_LM_Get_Field(cmdstr)`:
`return cmdstr.mid(bPos, ePos - bPos);`. -/
def MGH_LM_Get_Field (cmdstr : List Char) : List Char :=
  let st := scanField cmdstr 0 {}
  mid cmdstr st.bPos ((st.ePos : Int) - (st.bPos : Int))

/-- The `for` loop of `MGH_LM_Exact_Single_Channel_Info` from index `i` on,
with `rest` the bytes of `cmdstr` from `i` on: at every `;` the bytes
`cmdstr.mid(sp, i - sp)` are appended to `sList` and `sp` moves behind the
`;`. -/
def exactLoop (cmdstr : List Char) : List Char → Nat → Nat → List (List Char) →
    List (List Char)
  | [], _, _, sList => sList
  | c :: cs, i, sp, sList =>
    if c = ';' then
      exactLoop cmdstr cs (i + 1) (i + 1) (sList ++ [mid cmdstr sp ((i : Int) - (sp : Int))])
    else exactLoop cmdstr cs (i + 1) sp sList

/-- The function `BabyMEGInfo::MGH_LM_Exact_Single_Channel_Info(cmdstr)`.  The
conversion of each piece from `QByteArray` to `QString` is taken to be the
identity (plain command text). -/
def MGH_LM_Exact_Single_Channel_Info (cmdstr : List Char) : List (List Char) :=
  exactLoop cmdstr cmdstr 0 0 []

/-- The pieces of `t` between the occurrences of `sep`, empty pieces kept, with
`cur` the piece begun so far: `QString::split(sep)`. -/
def splitFrom (sep : Char) : List Char → List Char → List (List Char)
  | cur, [] => [cur]
  | cur, c :: cs => if c = sep then cur :: splitFrom sep [] cs else splitFrom sep (cur ++ [c]) cs

/-- The list `t.split(sep)` of `QString::split`. -/
def split (sep : Char) (t : List Char) : List (List Char) := splitFrom sep [] t

/-- The members of `BabyMEGInfo` that the command parser reads and writes:
`chnNum`, `dataLength`, `sfreq`, the sixteen per-channel lists and
`m_FiffInfo`; `emitted` logs the arguments of `emit fiffInfoAvailable`. -/
structure Para where
  chnNum : Int := 0
  dataLength : Int := 0
  sfreq : ℚ := 0
  lm_ch_names : List (List Char) := []
  lm_ch_scales : List (List Char) := []
  lm_ch_pos1 : List (List Char) := []
  lm_ch_pos2 : List (List Char) := []
  lm_ch_pos3 : List (List Char) := []
  lm_ch_pos4 : List (List Char) := []
  lm_ch_pos5 : List (List Char) := []
  lm_ch_pos6 : List (List Char) := []
  lm_ch_pos7 : List (List Char) := []
  lm_ch_pos8 : List (List Char) := []
  lm_ch_pos9 : List (List Char) := []
  lm_ch_pos10 : List (List Char) := []
  lm_ch_pos11 : List (List Char) := []
  lm_ch_pos12 : List (List Char) := []
  lm_ch_coiltype : List (List Char) := []
  lm_ch_calicoef : List (List Char) := []
  m_FiffInfo : FiffInfo := {}
  emitted : List FiffInfo := []
deriving DecidableEq, Repr

/-- A freshly constructed `BabyMEGInfo`: the constructor sets `g_maxlen` only,
the lists and `m_FiffInfo` are empty (the integers are not initialised; they
are assigned before they are read). -/
def Para.fresh : Para := {}

/-- The statements `lm_ch_names.append(t.left(z)); ... lm_ch_calicoef.append(
schp.at(14));` for one `|`, with `schp` the comma-separated pieces.
`QStringList::at` outside the list is undefined (`none`): the indices 0 to 14
are all read, so `schp` must have 15 pieces. -/
def appendChannel (s : Para) (name : List Char) (schp : List (List Char)) : Option Para :=
  if 15 ≤ schp.length then
    some { s with
      lm_ch_names := s.lm_ch_names ++ [name]
      lm_ch_scales := s.lm_ch_scales ++ [schp.getD 0 []]
      lm_ch_pos1 := s.lm_ch_pos1 ++ [schp.getD 1 []]
      lm_ch_pos2 := s.lm_ch_pos2 ++ [schp.getD 2 []]
      lm_ch_pos3 := s.lm_ch_pos3 ++ [schp.getD 3 []]
      lm_ch_pos4 := s.lm_ch_pos4 ++ [schp.getD 4 []]
      lm_ch_pos5 := s.lm_ch_pos5 ++ [schp.getD 5 []]
      lm_ch_pos6 := s.lm_ch_pos6 ++ [schp.getD 6 []]
      lm_ch_pos7 := s.lm_ch_pos7 ++ [schp.getD 7 []]
      lm_ch_pos8 := s.lm_ch_pos8 ++ [schp.getD 8 []]
      lm_ch_pos9 := s.lm_ch_pos9 ++ [schp.getD 9 []]
      lm_ch_pos10 := s.lm_ch_pos10 ++ [schp.getD 10 []]
      lm_ch_pos11 := s.lm_ch_pos11 ++ [schp.getD 11 []]
      lm_ch_pos12 := s.lm_ch_pos12 ++ [schp.getD 12 []]
      lm_ch_coiltype := s.lm_ch_coiltype ++ [schp.getD 13 []]
      lm_ch_calicoef := s.lm_ch_calicoef ++ [schp.getD 14 []] }
  else none

/-- The inner loop of `MGH_LM_Get_Channel_Info` over one record `t`, from
index `z` on, with `rest` the characters of `t` from `z` on: at every `|` the
name is `t.left(z)` and the values are split from `tt = t.mid(z)`. -/
def channelLoop (t : List Char) : List Char → Nat → Para → Option Para
  | [], _, s => some s
  | c :: cs, z, s =>
    if c = '|' then
      (appendChannel s (t.take z) (split ',' (t.drop z))).bind (channelLoop t cs (z + 1))
    else channelLoop t cs (z + 1) s

/-- The sixteen `clear()` calls of `MGH_LM_Get_Channel_Info`. -/
def clearLists (s : Para) : Para :=
  { s with
    lm_ch_names := [], lm_ch_scales := [], lm_ch_pos1 := [], lm_ch_pos2 := [],
    lm_ch_pos3 := [], lm_ch_pos4 := [], lm_ch_pos5 := [], lm_ch_pos6 := [],
    lm_ch_pos7 := [], lm_ch_pos8 := [], lm_ch_pos9 := [], lm_ch_pos10 := [],
    lm_ch_pos11 := [], lm_ch_pos12 := [], lm_ch_coiltype := [], lm_ch_calicoef := [] }

/-- The text `MGH_LM_Get_Channel_Info` splits into records:
`if (cmdstr[0]==':') cmdstr.remove(0,1);`. -/
def channelText (cmdstr : List Char) : List Char :=
  match cmdstr with
  | ':' :: cs => cs
  | _ => cmdstr

/-- The function `BabyMEGInfo::MGH_LM_Get_Channel_Info(cmdstr)`. -/
def MGH_LM_Get_Channel_Info (s : Para) (cmdstr : List Char) : Option Para :=
  (MGH_LM_Exact_Single_Channel_Info (channelText cmdstr)).foldlM
    (fun s t => channelLoop t t 0 s) (clearLists s)

/-- The conversions of Qt and of C++ that the parser applies to the text it has
cut out: `toInt()`, `toDouble()`, `toFloat()` followed by the conversion to
the integer `unit_mul`, and the conversion from `double` to the `float`
members of `FiffInfo`. -/
structure Conversions where
  toInt : List Char → Int
  toDouble : List Char → ℚ
  toFloatInt : List Char → Int
  toFloat32 : ℚ → ℚ

/-- The constants of fiff_constants.h (not among the sources) that
`MGH_LM_Parse_Para` uses. -/
structure Constants where
  FIFFV_MEG_CH : Int
  FIFFV_EEG_CH : Int
  FIFF_UNIT_T : Int
  FIFF_UNIT_V : Int
  FIFF_UNITM_NONE : Int
  FIFFV_COIL_EEG : Int
  FIFFV_COIL_BABY_MAG : Int
  FIFFV_COIL_BABY_REF_MAG : Int
deriving DecidableEq, Repr

/-- The first part of `MGH_LM_Parse_Para` (up to the call of
`MGH_LM_Get_Channel_Info`): the three header fields of an `INFO` command, or
the three default values; the second component is the text handed to
`MGH_LM_Get_Channel_Info`, if it is called. -/
def parseHeader (conv : Conversions) (s : Para) (cmdstr : List Char) :
    Para × Option (List Char) :=
  if cmdstr.take 4 = ['I', 'N', 'F', 'O'] then
    let cmdstr := cmdstr.drop 4
    let T := MGH_LM_Get_Field cmdstr
    let cmdstr := cmdstr.drop T.length
    let chnNum := conv.toInt (T.drop 1)
    let T := MGH_LM_Get_Field cmdstr
    let cmdstr := cmdstr.drop T.length
    let dataLength := conv.toInt (T.drop 1)
    let T := MGH_LM_Get_Field cmdstr
    let cmdstr := cmdstr.drop T.length
    let sfreq := conv.toDouble (T.drop 1)
    ({ s with chnNum := chnNum, dataLength := dataLength, sfreq := sfreq }, some cmdstr)
  else
    ({ s with chnNum := 464, dataLength := 5000, sfreq := 10000 }, none)

/-- The assignments to `m_FiffInfo` under `// Parameters` in
`MGH_LM_Parse_Para`. -/
def setParameters (conv : Conversions) (s : Para) : Para :=
  { s with
    m_FiffInfo := { s.m_FiffInfo with
      file_id_version := 0
      meas_date := (0, 0)
      sfreq := conv.toFloat32 s.sfreq
      highpass := 0
      lowpass := conv.toFloat32 s.sfreq / 2
      acq_pars := "BabyMEG"
      acq_stim := ""
      filename := ""
      meas_id_version := 1
      nchan := s.chnNum } }

/-- The `if` chain and the `switch` of `MGH_LM_Parse_Para`: `kind`, `unit`,
`unit_mul` and `coil_type` for the parsed coil type `type`. -/
def setKind (k : Constants) (type : Int) (t_ch : FiffChInfo) : FiffChInfo :=
  let ntype : Nat :=
    if type = k.FIFFV_COIL_BABY_MAG then 1
    else if type = k.FIFFV_COIL_EEG then 2
    else if type = k.FIFFV_COIL_BABY_REF_MAG then 3
    else 0
  match ntype with
  | 1 => { t_ch with kind := k.FIFFV_MEG_CH, unit := k.FIFF_UNIT_T,
                     unit_mul := k.FIFF_UNITM_NONE, coil_type := k.FIFFV_COIL_BABY_MAG }
  | 2 => { t_ch with kind := k.FIFFV_EEG_CH, unit := k.FIFF_UNIT_V,
                     unit_mul := k.FIFF_UNITM_NONE, coil_type := k.FIFFV_COIL_EEG }
  | 3 => { t_ch with kind := k.FIFFV_MEG_CH, unit := k.FIFF_UNIT_T,
                     unit_mul := k.FIFF_UNITM_NONE, coil_type := k.FIFFV_COIL_BABY_REF_MAG }
  | _ => { t_ch with kind := k.FIFFV_MEG_CH, unit := k.FIFF_UNIT_T,
                     unit_mul := k.FIFF_UNITM_NONE, coil_type := k.FIFFV_COIL_BABY_MAG }

/-- Index `i` is inside every one of the sixteen per-channel lists. -/
def Para.covers (s : Para) (i : Nat) : Prop :=
  i < s.lm_ch_names.length ∧ i < s.lm_ch_calicoef.length ∧ i < s.lm_ch_scales.length ∧
  i < s.lm_ch_pos1.length ∧ i < s.lm_ch_pos2.length ∧ i < s.lm_ch_pos3.length ∧
  i < s.lm_ch_pos4.length ∧ i < s.lm_ch_pos5.length ∧ i < s.lm_ch_pos6.length ∧
  i < s.lm_ch_pos7.length ∧ i < s.lm_ch_pos8.length ∧ i < s.lm_ch_pos9.length ∧
  i < s.lm_ch_pos10.length ∧ i < s.lm_ch_pos11.length ∧ i < s.lm_ch_pos12.length ∧
  i < s.lm_ch_coiltype.length

instance (s : Para) (i : Nat) : Decidable (s.covers i) := by
  unfold Para.covers
  infer_instance

/-- The twelve position texts of channel `i`, `lm_ch_pos1.at(i)` to
`lm_ch_pos12.at(i)`. -/
def Para.positions (s : Para) (i : Nat) : List (List Char) :=
  [s.lm_ch_pos1.getD i [], s.lm_ch_pos2.getD i [], s.lm_ch_pos3.getD i [],
    s.lm_ch_pos4.getD i [], s.lm_ch_pos5.getD i [], s.lm_ch_pos6.getD i [],
    s.lm_ch_pos7.getD i [], s.lm_ch_pos8.getD i [], s.lm_ch_pos9.getD i [],
    s.lm_ch_pos10.getD i [], s.lm_ch_pos11.getD i [], s.lm_ch_pos12.getD i []]

/-- The descriptor `t_ch` that the body of the loop `for(qint32 i = 0; i <
chnNum; i++)` of `MGH_LM_Parse_Para` builds for channel `i` from the entries
`at(i)` of the per-channel lists.  `unit_mul` is first set from the scale text
and then overwritten in the `switch`. -/
def descriptorOf (conv : Conversions) (k : Constants) (s : Para) (i : Nat) : FiffChInfo :=
  setKind k (conv.toInt (s.lm_ch_coiltype.getD i []))
    { ch_name := String.mk (s.lm_ch_names.getD i [])
      scanno := i
      logno := i + 1
      cal := conv.toDouble (s.lm_ch_calicoef.getD i [])
      unit_mul := conv.toFloatInt (s.lm_ch_scales.getD i [])
      range := 1
      loc := (s.positions i).map conv.toDouble }

/-- The body of the loop for channel `i`: `QStringList::at(i)` outside a list
is undefined (`none`). -/
def channelDescriptor (conv : Conversions) (k : Constants) (s : Para) (i : Nat) :
    Option FiffChInfo :=
  if s.covers i then some (descriptorOf conv k s i) else none

/-- The statements `m_FiffInfo.chs.append(t_ch);
m_FiffInfo.ch_names.append(t_ch.ch_name);` for the descriptors `ds` in turn. -/
def Para.addChannels (s : Para) (ds : List FiffChInfo) : Para :=
  { s with m_FiffInfo := { s.m_FiffInfo with
      chs := s.m_FiffInfo.chs ++ ds
      ch_names := s.m_FiffInfo.ch_names ++ ds.map fun t_ch => t_ch.ch_name } }

/-- The loop `for(qint32 i = 0; i < chnNum; i++)` of `MGH_LM_Parse_Para` over
the indices `is`: each descriptor is appended to `m_FiffInfo.chs` and its name
to `m_FiffInfo.ch_names`. -/
def channelsLoop (conv : Conversions) (k : Constants) (s : Para) (is : List Nat) :
    Option Para :=
  is.foldlM (fun s i => (channelDescriptor conv k s i).map fun t_ch => s.addChannels [t_ch]) s

/-- The `if (CMD == "INFO") ... else ...` statement of `MGH_LM_Parse_Para`:
the header fields, and for an `INFO` command the call of
`MGH_LM_Get_Channel_Info` on what follows them. -/
def parseCommand (conv : Conversions) (s : Para) (cmdstr : List Char) : Option Para :=
  match parseHeader conv s cmdstr with
  | (s0, some rest) => MGH_LM_Get_Channel_Info s0 rest
  | (s0, none) => some s0

/-- The function `BabyMEGInfo::MGH_LM_Parse_Para(cmdstr)`; `none` when a list
is read outside its range. -/
def MGH_LM_Parse_Para (conv : Conversions) (k : Constants) (s : Para)
    (cmdstr : List Char) : Option Para :=
  (parseCommand conv s cmdstr).bind fun s1 =>
    (channelsLoop conv k (setParameters conv s1) (List.range s1.chnNum.toNat)).map fun s2 =>
      { s2 with emitted := s2.emitted ++ [s2.m_FiffInfo] }

end BabyMEGInfo

namespace BabyMEGInfo

/-- The value of a string of decimal digits, 0 for any other text: stands in
for the conversions of Qt on the example commands. -/
def decimal (t : List Char) : Int :=
  if t ≠ [] ∧ t.all Char.isDigit then
    t.foldl (fun acc c => acc * 10 + ((c.toNat - '0'.toNat : Nat) : Int)) 0
  else 0

/-- Conversions for the example commands, whose numbers are plain decimal
integers. -/
def exampleConv : Conversions :=
  { toInt := decimal, toDouble := fun t => (decimal t : ℚ), toFloatInt := decimal,
    toFloat32 := id }

/-- The values of the constants in the FIFF definitions. -/
def fiffConstants : Constants :=
  { FIFFV_MEG_CH := 1, FIFFV_EEG_CH := 2, FIFF_UNIT_T := 112, FIFF_UNIT_V := 107,
    FIFF_UNITM_NONE := 0, FIFFV_COIL_EEG := 1, FIFFV_COIL_BABY_MAG := 7002,
    FIFFV_COIL_BABY_REF_MAG := 7003 }

/-- An `INFO` command with two channel records. -/
def exampleCommand : List Char :=
  "INFO:2:5000:10000:MEG001|3,1,2,3,4,5,6,7,8,9,10,11,12,7002,5;EEG001|4,1,2,3,4,5,6,7,8,9,10,11,12,1,6;".toList

end BabyMEGInfo

namespace BabyMEGInfo

/-- The records of a text, read from the left: the piece in front of each `;`,
with `cur` the piece begun so far; what follows the last `;` is dropped. -/
def recordsFrom : List Char → List Char → List (List Char)
  | _, [] => []
  | cur, c :: cs => if c = ';' then cur :: recordsFrom [] cs else recordsFrom (cur ++ [c]) cs

/-- The text of a list of records, each followed by `;`. -/
def recordsText (records : List (List Char)) : List Char :=
  (records.map fun r => r ++ [';']).flatten

end BabyMEGInfo

namespace BabyMEGInfo

/-- The state `r` with the members other than the sixteen per-channel lists
taken from `s`. -/
def Para.withHeaderOf (r s : Para) : Para :=
  { r with chnNum := s.chnNum, dataLength := s.dataLength, sfreq := s.sfreq,
           m_FiffInfo := s.m_FiffInfo, emitted := s.emitted }

/-- All sixteen per-channel lists have length `n`. -/
def Para.aligned (s : Para) (n : Nat) : Prop :=
  s.lm_ch_names.length = n ∧ s.lm_ch_calicoef.length = n ∧ s.lm_ch_scales.length = n ∧
  s.lm_ch_pos1.length = n ∧ s.lm_ch_pos2.length = n ∧ s.lm_ch_pos3.length = n ∧
  s.lm_ch_pos4.length = n ∧ s.lm_ch_pos5.length = n ∧ s.lm_ch_pos6.length = n ∧
  s.lm_ch_pos7.length = n ∧ s.lm_ch_pos8.length = n ∧ s.lm_ch_pos9.length = n ∧
  s.lm_ch_pos10.length = n ∧ s.lm_ch_pos11.length = n ∧ s.lm_ch_pos12.length = n ∧
  s.lm_ch_coiltype.length = n

/-- The sixteen per-channel lists of two states are the same. -/
def Para.sameLists (s r : Para) : Prop :=
  s.lm_ch_names = r.lm_ch_names ∧ s.lm_ch_calicoef = r.lm_ch_calicoef ∧
  s.lm_ch_scales = r.lm_ch_scales ∧
  s.lm_ch_pos1 = r.lm_ch_pos1 ∧ s.lm_ch_pos2 = r.lm_ch_pos2 ∧ s.lm_ch_pos3 = r.lm_ch_pos3 ∧
  s.lm_ch_pos4 = r.lm_ch_pos4 ∧ s.lm_ch_pos5 = r.lm_ch_pos5 ∧ s.lm_ch_pos6 = r.lm_ch_pos6 ∧
  s.lm_ch_pos7 = r.lm_ch_pos7 ∧ s.lm_ch_pos8 = r.lm_ch_pos8 ∧ s.lm_ch_pos9 = r.lm_ch_pos9 ∧
  s.lm_ch_pos10 = r.lm_ch_pos10 ∧ s.lm_ch_pos11 = r.lm_ch_pos11 ∧
  s.lm_ch_pos12 = r.lm_ch_pos12 ∧ s.lm_ch_coiltype = r.lm_ch_coiltype

/-- Every `|` of the text is followed, up to the end of its record, by at least
15 comma-separated pieces (the piece that starts with the `|` included). -/
def FifteenFields (cmdstr : List Char) : Prop :=
  ∀ t ∈ MGH_LM_Exact_Single_Channel_Info (channelText cmdstr), ∀ z, z < t.length →
    t[z]? = some '|' → 15 ≤ (split ',' (t.drop z)).length

/-- The values of a channel record joined with commas. -/
def joinValues : List (List Char) → List Char
  | [] => []
  | [v] => v
  | v :: w :: vs => v ++ ',' :: joinValues (w :: vs)

/-- A channel record of an `INFO` command: the name and the comma-separated
values behind the `|`. -/
structure ChannelRecord where
  name : List Char
  values : List (List Char)
deriving DecidableEq, Repr

/-- The text of a channel record, without the closing `;`. -/
def ChannelRecord.text (r : ChannelRecord) : List Char :=
  r.name ++ '|' :: joinValues r.values

/-- A record as the acquisition sends it: a name without `|` and `;` and 15
values without `,`, `|` and `;`. -/
def ChannelRecord.WellFormed (r : ChannelRecord) : Prop :=
  '|' ∉ r.name ∧ ';' ∉ r.name ∧ r.values.length = 15 ∧
  ∀ v ∈ r.values, ',' ∉ v ∧ '|' ∉ v ∧ ';' ∉ v

/-- The command `INFO:` n `:` len `:` fs `:` records, each record closed by
`;`. -/
def infoCommand (tn tl tf : List Char) (records : List ChannelRecord) : List Char :=
  'I' :: 'N' :: 'F' :: 'O' :: ':' :: (tn ++ ':' :: (tl ++ ':' :: (tf ++ ':' ::
    recordsText (records.map ChannelRecord.text))))

end BabyMEGInfo

namespace BabyMEGInfo

/-- What `MGH_LM_Parse_Para` makes of the state `s1` reached behind the `if
(CMD == "INFO")` statement when every list is long enough: the parameters, the
`chnNum` descriptors, and the emitted `m_FiffInfo`. -/
def Para.finish (conv : Conversions) (k : Constants) (s1 : Para) : Para :=
  let s2 := (setParameters conv s1).addChannels
    ((List.range s1.chnNum.toNat).map (descriptorOf conv k s1))
  { s2 with emitted := s2.emitted ++ [s2.m_FiffInfo] }

end BabyMEGInfo

namespace BabyMEGInfo

/-- The two channel records of `exampleCommand`. -/
def exampleRecords : List ChannelRecord :=
  [{ name := "MEG001".toList,
     values := ["3", "1", "2", "3", "4", "5", "6", "7", "8", "9", "10", "11", "12", "7002",
       "5"].map String.toList },
   { name := "EEG001".toList,
     values := ["4", "1", "2", "3", "4", "5", "6", "7", "8", "9", "10", "11", "12", "1",
       "6"].map String.toList }]

/-- An `INFO` command with one channel record. -/
def oneRecordCommand : List Char :=
  "INFO:1:5000:10000:MEG001|3,1,2,3,4,5,6,7,8,9,10,11,12,7002,5;".toList

/-- An `INFO` command that announces three channels and carries two records. -/
def shortCommand : List Char :=
  "INFO:3:5000:10000:MEG001|3,1,2,3,4,5,6,7,8,9,10,11,12,7002,5;EEG001|4,1,2,3,4,5,6,7,8,9,10,11,12,1,6;".toList

end BabyMEGInfo

namespace MNE_BROWSE_RAW_QT

/-- The kinds of log message that `MainWindow::writeToLog` tells apart (the
enumeration `LogKind` is declared in info.h, which is not among the
sources). -/
inductive LogKind where
  | _LogKndMessage
  | _LogKndWarning
  | _LogKndError
deriving DecidableEq, Repr

/-- A call on the log text browser `m_pTextBrowser_Log`. -/
inductive LogInsert where
  | insertHtml (text : String)
  | insertPlainText (text : String)
deriving DecidableEq, Repr

/-- The log members of `MainWindow`: the current log level (an enumerator of
`LogLevel`, compared by value), what was inserted into the log text browser,
oldest first, and whether the cursor and the scroll bar were moved to the
end. -/
structure MainWindow where
  m_eLogLevelCurrent : Int
  m_pTextBrowser_Log : List LogInsert := []
  cursorAtEnd : Bool := false
  scrollBarAtMaximum : Bool := false
deriving DecidableEq, Repr

/-- The argument of `insertHtml` in `writeToLog`, by message kind. -/
def logHtml (logMsg : String) : LogKind → String
  | ._LogKndError => "<font color=red><b>Error:</b> " ++ logMsg ++ "</font>"
  | ._LogKndWarning => "<font color=blue><b>Warning:</b> " ++ logMsg ++ "</font>"
  | ._LogKndMessage => logMsg

/-- The method `MainWindow::writeToLog(logMsg, lgknd, lglvl)`. -/
def writeToLog (w : MainWindow) (logMsg : String) (lgknd : LogKind) (lglvl : Int) :
    MainWindow :=
  if lglvl ≤ w.m_eLogLevelCurrent then
    { w with
      m_pTextBrowser_Log := w.m_pTextBrowser_Log ++
        [.insertHtml (logHtml logMsg lgknd), .insertPlainText "\n"]
      cursorAtEnd := true
      scrollBarAtMaximum := true }
  else w

end MNE_BROWSE_RAW_QT

namespace BabyMEGInfo

theorem EnQueue_foldl {α : Type} (xs : List α) (s : Queue α)
    (h : s.g_queue.length + xs.length ≤ s.g_maxlen) (hw : s.notEmptyWaiting = 0) :
    xs.foldl EnQueue s = { s with g_queue := s.g_queue ++ xs } := by
  induction xs generalizing s with
  | nil => simp
  | cons x xs ih =>
    simp only [List.length_cons] at h
    have hne : s.g_queue.length ≠ s.g_maxlen := by omega
    rw [List.foldl_cons]
    have hstep : EnQueue s x = EnQueue_tail s x := by simp [EnQueue, hne]
    rw [hstep, ih]
    · simp [EnQueue_tail, hw]
    · simp [EnQueue_tail]; omega
    · simp [EnQueue_tail]

theorem DeQueue_iterate {α : Type} (xs : List α) (s : Queue α)
    (hq : s.g_queue = xs) (hw : s.notFullWaiting = []) :
    DeQueue^[xs.length] s =
      { s with g_queue := [], returned := s.returned ++ xs.map some } := by
  induction xs generalizing s with
  | nil => cases s; simp_all
  | cons x xs ih =>
    have hstep : DeQueue s = DeQueue_tail s := by simp [DeQueue, hq]
    rw [List.length_cons, Function.iterate_succ_apply, hstep, ih]
    · simp [DeQueue_tail, hq, hw]
    · simp [DeQueue_tail, hq]
    · simp [DeQueue_tail]

/-- C1: items passed one by one to `EnQueue` on a fresh queue, at most
`g_maxlen = 500` of them, come back from the next calls of `DeQueue` in the
order they went in; no call had to wait and the queue is empty afterwards. -/
theorem EnQueue_DeQueue_fifo {α : Type} (xs : List α) (h : xs.length ≤ 500) :
    (xs.foldl EnQueue (Queue.new α)).g_queue = xs ∧
    (xs.foldl EnQueue (Queue.new α)).quiescent ∧
    (DeQueue^[xs.length] (xs.foldl EnQueue (Queue.new α))).returned = xs.map some ∧
    (DeQueue^[xs.length] (xs.foldl EnQueue (Queue.new α))).g_queue = [] ∧
    (DeQueue^[xs.length] (xs.foldl EnQueue (Queue.new α))).quiescent := by
  have hfold := EnQueue_foldl xs (Queue.new α) (by simpa [Queue.new] using h) rfl
  have hiter := DeQueue_iterate xs (xs.foldl EnQueue (Queue.new α))
    (by rw [hfold]; simp [Queue.new]) (by rw [hfold]; simp [Queue.new])
  rw [hiter, hfold]
  refine ⟨?_, ?_, ?_, ?_, ?_⟩ <;> simp [Queue.new, Queue.quiescent]

theorem EnQueue_DeQueue_fifo_witness :
    ([3, 1, 2] : List Nat).length ≤ 500 ∧
    (DeQueue^[3] ([3, 1, 2].foldl EnQueue (Queue.new Nat))).returned = [some 3, some 1, some 2] :=
  ⟨by decide, (EnQueue_DeQueue_fifo [3, 1, 2] (by decide)).2.2.1⟩

theorem exec_append {α : Type} (s : Queue α) (es fs : List (Event α)) :
    exec s (es ++ fs) = exec (exec s es) fs := by
  simp [exec, List.foldl_append]

theorem exec_callEnQueue {α : Type} (s : Queue α) (xs : List α) :
    exec s (xs.map .callEnQueue) = xs.foldl EnQueue s := by
  induction xs generalizing s with
  | nil => rfl
  | cons x xs ih => simpa [exec, step] using ih (EnQueue s x)

theorem step_g_maxlen {α : Type} (s : Queue α) (e : Event α) :
    (step s e).g_maxlen = s.g_maxlen := by
  cases e with
  | callEnQueue x => simp only [step, EnQueue]; split <;> rfl
  | callDeQueue => simp only [step, DeQueue]; split <;> rfl
  | resumeEnQueue i => simp only [step]; split <;> rfl
  | resumeDeQueue => simp only [step]; split <;> rfl

theorem exec_g_maxlen {α : Type} (evs : List (Event α)) (s : Queue α) :
    (exec s evs).g_maxlen = s.g_maxlen := by
  induction evs generalizing s with
  | nil => rfl
  | cons e es ih => exact (ih (step s e)).trans (step_g_maxlen s e)

theorem two_producers_after_fill (xs : List Nat) (h : xs.length = 500) :
    (exec (Queue.new Nat) (xs.map .callEnQueue ++
      [.callEnQueue 1, .callEnQueue 2, .callDeQueue, .resumeEnQueue 0,
        .resumeEnQueue 0])).g_queue.length = 501 := by
  have hfold := EnQueue_foldl xs (Queue.new Nat) (by simp [Queue.new, h]) rfl
  have hne : xs ≠ [] := by intro h0; simp [h0] at h
  rw [exec_append, exec_callEnQueue, hfold]
  simp [exec, step, EnQueue, EnQueue_tail, DeQueue, DeQueue_tail, Queue.new, h, hne]

/-- C2: with two producers the bound is broken.  After 500 items, two further
`EnQueue` calls wait; one `DeQueue` wakes both and, as `EnQueue` tests the
length with `if` and not again after `wait`, both append: the queue then holds
501 items although `g_maxlen` is 500. -/
theorem EnQueue_two_producers_exceed_g_maxlen :
    (exec (Queue.new Nat) twoProducers).g_maxlen = 500 ∧
    (exec (Queue.new Nat) twoProducers).g_queue.length = 501 :=
  ⟨exec_g_maxlen twoProducers (Queue.new Nat),
    two_producers_after_fill (List.replicate 500 0) (List.length_replicate 500 0)⟩

/-- C3: with two consumers `DeQueue` takes from an empty queue.  Two `DeQueue`
calls wait on the empty queue; one `EnQueue 7` wakes both and, as `DeQueue`
tests emptiness with `if` and not again after `wait`, the second one executes
`g_queue.dequeue()` on an empty queue: it returns a value nobody enqueued. -/
theorem DeQueue_two_consumers_take_from_empty :
    (exec (Queue.new Nat) (twoConsumers.take 4)).g_queue = [] ∧
    (exec (Queue.new Nat) (twoConsumers.take 4)).notEmptyWoken = 1 ∧
    (exec (Queue.new Nat) twoConsumers).returned = [some 7, none] := by
  decide

theorem Safe_step {α : Type} (s : Queue α) (e : Event α) (hs : s.Safe)
    (he : e.singleCaller s) : (step s e).Safe := by
  obtain ⟨h0, hlen, hprod, hwoken, hcons, hne, hret⟩ := hs
  cases e with
  | callEnQueue x =>
    obtain ⟨hw1, hw2⟩ := he
    by_cases hfull : s.g_queue.length = s.g_maxlen
    · simp only [step, EnQueue, hfull, if_true]
      refine ⟨h0, by simp [hfull], by simp [hw1, hw2], by simp [hw2], hcons, hne, hret⟩
    · simp only [step, EnQueue, hfull, if_false, EnQueue_tail]
      refine ⟨h0, ?_, hprod, by simp [hw2], by simp; omega, by simp, hret⟩
      simp; omega
  | callDeQueue =>
    obtain ⟨hw1, hw2⟩ := he
    cases hq : s.g_queue with
    | nil =>
      simp only [step, DeQueue, hq, List.isEmpty_nil, if_true]
      refine ⟨h0, by simp, hprod, ?_, by simp [hw1, hw2], by simp [hw2], hret⟩
      intro h; simpa [hq] using hwoken h
    | cons v rest =>
      simp only [step, DeQueue, hq, List.isEmpty_cons, DeQueue_tail]
      rw [hq] at hlen
      simp only [List.length_cons] at hlen
      refine ⟨h0, by simp; omega, by simp; omega, by simp; omega, hcons,
        by simp [hw2], ?_⟩
      intro r hr
      simp only [Bool.false_eq_true, if_false, List.mem_append, List.mem_singleton] at hr
      rcases hr with hr | hr
      · exact hret r hr
      · simp [hr]
  | resumeEnQueue i =>
    cases hi : s.notFullWoken[i]? with
    | none => simpa [step, hi] using ⟨h0, hlen, hprod, hwoken, hcons, hne, hret⟩
    | some x =>
      have hwne : s.notFullWoken ≠ [] := by
        intro h; simp [h] at hi
      have hlt := hwoken hwne
      have hil : i < s.notFullWoken.length := by
        by_contra hcon
        rw [List.getElem?_eq_none (by omega)] at hi
        cases hi
      have herase : (s.notFullWoken.eraseIdx i).length = s.notFullWoken.length - 1 := by
        rw [List.length_eraseIdx]; simp [hil]
      simp only [step, hi, EnQueue_tail]
      refine ⟨h0, by simp; omega, by simp only [herase]; omega, ?_, by simp; omega,
        by simp, hret⟩
      intro h
      exfalso
      apply h
      apply List.eq_nil_of_length_eq_zero
      rw [herase]; omega
  | resumeDeQueue =>
    by_cases hw : 0 < s.notEmptyWoken
    · have hq := hne hw
      obtain ⟨v, rest, hq⟩ := List.exists_cons_of_ne_nil hq
      rw [hq] at hlen
      simp only [List.length_cons] at hlen
      simp only [step, hw, if_true, DeQueue_tail, hq]
      refine ⟨h0, by simp; omega, by simp; omega, by simp; omega, by simp; omega,
        ?_, ?_⟩
      · intro h; simp at h; omega
      · intro r hr
        simp only [List.mem_append, List.mem_singleton] at hr
        rcases hr with hr | hr
        · exact hret r hr
        · simp [hr]
    · simpa [step, hw] using ⟨h0, hlen, hprod, hwoken, hcons, hne, hret⟩

theorem Safe_exec {α : Type} (evs : List (Event α)) (s : Queue α) (hs : s.Safe)
    (h : SingleProducerConsumer s evs) : (exec s evs).Safe := by
  induction evs generalizing s with
  | nil => exact hs
  | cons e es ih => exact ih (step s e) (Safe_step s e hs h.1) h.2

/-- With one producer and one consumer the `if` around each `wait` is enough:
the queue never holds more than `g_maxlen = 500` items and `DeQueue` never
takes from an empty queue. -/
theorem single_producer_consumer_safe {α : Type} (evs : List (Event α))
    (h : SingleProducerConsumer (Queue.new α) evs) :
    (exec (Queue.new α) evs).g_queue.length ≤ 500 ∧
    ∀ r ∈ (exec (Queue.new α) evs).returned, r ≠ none := by
  have hs : (Queue.new α).Safe := by simp [Queue.Safe, Queue.new]
  have := Safe_exec evs (Queue.new α) hs h
  have hmax : (exec (Queue.new α) evs).g_maxlen = 500 := exec_g_maxlen evs (Queue.new α)
  exact ⟨hmax ▸ this.2.1, this.2.2.2.2.2.2⟩

theorem single_producer_consumer_safe_witness :
    SingleProducerConsumer (Queue.new Nat)
      [.callDeQueue, .callEnQueue 4, .resumeDeQueue, .callEnQueue 5] ∧
    (exec (Queue.new Nat)
      [.callDeQueue, .callEnQueue 4, .resumeDeQueue, .callEnQueue 5]).g_queue.length ≤ 500 :=
  ⟨by simp [SingleProducerConsumer, Event.singleCaller, step, DeQueue, EnQueue, EnQueue_tail,
      DeQueue_tail, Queue.new],
    (single_producer_consumer_safe _ (by
      simp [SingleProducerConsumer, Event.singleCaller, step, DeQueue, EnQueue, EnQueue_tail,
        DeQueue_tail, Queue.new])).1⟩

end BabyMEGInfo

namespace FIFFLIB

/-- C4: with an empty list of projection vectors `make_projector` returns the
identity matrix (over the good channels) and the count 0, whatever the channel
names and the bad channels; the decomposition of a matrix without rows is
taken to have no singular values. -/
theorem make_projector_no_vectors (svd : List (List ℚ) → List (ℚ × List ℚ)) (tol : ℚ)
    (ch_names bads : List String) (hsvd : svd [] = []) :
    make_projector svd tol [] ch_names bads =
      (MatrixX.Identity (goodChannels ch_names bads).length, 0) := by
  simp [make_projector, stackedRows, retained, hsvd]

theorem make_projector_no_vectors_witness :
    (fun _ => [] : List (List ℚ) → List (ℚ × List ℚ)) [] = [] ∧
    make_projector (fun _ => []) (1 / 1000000) [] ["MEG1", "MEG2", "EEG1"] ["MEG2"] =
      (MatrixX.Identity 2, 0) :=
  ⟨rfl, make_projector_no_vectors (fun _ => []) (1 / 1000000) ["MEG1", "MEG2", "EEG1"] ["MEG2"] rfl⟩

/-- C7: the static `make_projector_info(&info, proj)` gives the same projector
and count as the member `info.make_projector_info(proj)`, which gives what
`make_projector(info.projs, info.ch_names, proj, info.bads)` gives; `info`
comes back with `projs`, `ch_names` and `bads` as they were. -/
theorem make_projector_info_eq (svd : List (List ℚ) → List (ℚ × List ℚ)) (tol : ℚ)
    (info : FiffInfo) :
    (make_projector_info svd tol info).2 = (info.make_projector_info svd tol).2 ∧
    (info.make_projector_info svd tol).2 =
      make_projector svd tol info.projs info.ch_names info.bads ∧
    (make_projector_info svd tol info).1.projs = info.projs ∧
    (make_projector_info svd tol info).1.ch_names = info.ch_names ∧
    (make_projector_info svd tol info).1.bads = info.bads ∧
    (info.make_projector_info svd tol).1.projs = info.projs ∧
    (info.make_projector_info svd tol).1.ch_names = info.ch_names ∧
    (info.make_projector_info svd tol).1.bads = info.bads :=
  ⟨rfl, rfl, rfl, rfl, rfl, rfl, rfl, rfl⟩

end FIFFLIB

namespace NoiseEstimatePlugin

theorem set_take_drop {β : Type} (s t : List β) (i : Nat) (hs : i < s.length)
    (ht : i < t.length) :
    (s.take i ++ t.drop i).set i s[i] = s.take (i + 1) ++ t.drop (i + 1) := by
  have h1 : (s.take i).length = i := by simp; omega
  have h2 : t.drop i = t[i] :: t.drop (i + 1) := List.drop_eq_getElem_cons ht
  have h3 : s.take (i + 1) = s.take i ++ [s[i]] := by
    rw [List.take_succ, List.getElem?_eq_getElem hs]; rfl
  rw [List.set_append, h1, h2, h3]
  simp only [lt_irrefl, if_false, Nat.sub_self, List.set_cons_zero, List.append_assoc,
    List.singleton_append]

theorem update_t_mat_columns {α : Type} (fill : α) (pRTMSA : NewRealTimeMultiSampleArray α)
    (hlen : pRTMSA.getMultiSampleArray.length = pRTMSA.getMultiArraySize)
    (hrows : ∀ v ∈ pRTMSA.getMultiSampleArray, v.length = pRTMSA.getNumChannels)
    (i : Nat) (hi : i ≤ pRTMSA.getMultiArraySize) :
    (List.range i).foldlM
      (fun t_mat i => do
        let v ← pRTMSA.getMultiSampleArray[i]?
        MatrixX.setCol t_mat i v)
      (MatrixX.uninitialized pRTMSA.getNumChannels pRTMSA.getMultiArraySize fill) =
    some { rows := pRTMSA.getNumChannels, cols := pRTMSA.getMultiArraySize,
           coeff := pRTMSA.getMultiSampleArray.take i ++
            (MatrixX.uninitialized pRTMSA.getNumChannels
              pRTMSA.getMultiArraySize fill).coeff.drop i } := by
  induction i with
  | zero => simp [MatrixX.uninitialized, MatrixX.ofFn]
  | succ i ih =>
    have hi1 : i < pRTMSA.getMultiSampleArray.length := by omega
    have hi2 : i < (MatrixX.uninitialized pRTMSA.getNumChannels
        pRTMSA.getMultiArraySize fill).coeff.length := by
      simp [MatrixX.uninitialized, MatrixX.ofFn]; omega
    have hv : (pRTMSA.getMultiSampleArray[i]).length = pRTMSA.getNumChannels :=
      hrows _ (List.getElem_mem hi1)
    rw [List.range_succ, List.foldlM_append, ih (by omega)]
    simp only [Option.some_bind, List.foldlM_cons, List.foldlM_nil,
      List.getElem?_eq_getElem hi1, MatrixX.setCol]
    have hlt : i < pRTMSA.getMultiArraySize := by omega
    simp only [bind, Option.bind, hlt, hv, and_self, if_true, pure, Option.some.injEq,
      MatrixX.mk.injEq, true_and]
    exact set_take_drop _ _ i hi1 hi2

theorem update_t_mat_eq {α : Type} (fill : α) (pRTMSA : NewRealTimeMultiSampleArray α)
    (hlen : pRTMSA.getMultiSampleArray.length = pRTMSA.getMultiArraySize)
    (hrows : ∀ v ∈ pRTMSA.getMultiSampleArray, v.length = pRTMSA.getNumChannels) :
    update_t_mat fill pRTMSA =
      some { rows := pRTMSA.getNumChannels, cols := pRTMSA.getMultiArraySize,
             coeff := pRTMSA.getMultiSampleArray } := by
  have h := update_t_mat_columns fill pRTMSA hlen hrows pRTMSA.getMultiArraySize le_rfl
  rw [update_t_mat, h]
  have h1 : List.take pRTMSA.getMultiArraySize pRTMSA.getMultiSampleArray
      = pRTMSA.getMultiSampleArray := List.take_of_length_le (by omega)
  have h2 : List.drop pRTMSA.getMultiArraySize
      (MatrixX.uninitialized pRTMSA.getNumChannels pRTMSA.getMultiArraySize fill).coeff = [] :=
    List.drop_of_length_le (by simp [MatrixX.uninitialized, MatrixX.ofFn])
  rw [h1, h2, List.append_nil]

theorem update_init_m_bProcessData {α : Type} (s : NoiseEstimate α)
    (pRTMSA : NewRealTimeMultiSampleArray α) :
    (update_init s pRTMSA).m_bProcessData = s.m_bProcessData := by
  simp only [update_init]
  split <;> split <;> simp_all

theorem update_init_m_pBuffer {α : Type} (s : NoiseEstimate α)
    (pRTMSA : NewRealTimeMultiSampleArray α) :
    ∃ b, (update_init s pRTMSA).m_pBuffer = some b := by
  simp only [update_init]
  split <;> split <;> simp_all

/-- C8: when a sample-array measurement of `c` channels and `k` samples, each
sample a vector of length `c`, reaches `update` while processing is enabled,
the matrix `t_mat` handed to `m_pBuffer->push` has `c` rows and `k` columns and
its column `i` is the `i`-th sample vector, for every `i < k`.  The buffer
exists at that point; if it has room the block goes in at the back and
`update` returns, and if it is full and not released the call is suspended in
`push`. -/
theorem update_pushes_sample_matrix {α : Type} (fill : α) (s : NoiseEstimate α)
    (pRTMSA : NewRealTimeMultiSampleArray α)
    (hproc : s.m_bProcessData = true)
    (hlen : pRTMSA.getMultiSampleArray.length = pRTMSA.getMultiArraySize)
    (hrows : ∀ v ∈ pRTMSA.getMultiSampleArray, v.length = pRTMSA.getNumChannels) :
    ∃ t_mat b,
      update_t_mat fill pRTMSA = some t_mat ∧
      (update_init s pRTMSA).m_pBuffer = some b ∧
      t_mat.rows = pRTMSA.getNumChannels ∧
      t_mat.cols = pRTMSA.getMultiArraySize ∧
      (∀ i, i < pRTMSA.getMultiArraySize → ∃ v, t_mat.col i = some v ∧
        pRTMSA.getMultiSampleArray[i]? = some v) ∧
      (b.blocks.length < b.capacity →
        update fill s (.rtmsa pRTMSA) = .returned { update_init s pRTMSA with
          m_pBuffer := some { b with blocks := b.blocks ++ [t_mat] } }) ∧
      (¬ b.blocks.length < b.capacity → b.released = false →
        update fill s (.rtmsa pRTMSA) = .suspended (update_init s pRTMSA)) := by
  obtain ⟨b, hb⟩ := update_init_m_pBuffer s pRTMSA
  have hmat := update_t_mat_eq fill pRTMSA hlen hrows
  have hp : (update_init s pRTMSA).m_bProcessData = true := by
    rw [update_init_m_bProcessData, hproc]
  refine ⟨_, b, hmat, hb, rfl, rfl, ?_, ?_, ?_⟩
  · intro i hi
    have hi1 : i < pRTMSA.getMultiSampleArray.length := by omega
    exact ⟨pRTMSA.getMultiSampleArray[i], by simp [MatrixX.col, hi1], by simp [hi1]⟩
  · intro hroom
    simp only [update, hp, if_true, hmat, hb, CircularMatrixBuffer.push, hroom]
  · intro hfull hrel
    simp only [update, hp, if_true, hmat, hb, CircularMatrixBuffer.push, hfull, hrel,
      if_false, Bool.false_eq_true]

theorem update_pushes_sample_matrix_witness :
    (exampleProcessing.m_bProcessData = true ∧
      exampleMeasurement.getMultiSampleArray.length = exampleMeasurement.getMultiArraySize ∧
      ∀ v ∈ exampleMeasurement.getMultiSampleArray,
        v.length = exampleMeasurement.getNumChannels) ∧
    ∃ t_mat b,
      update_t_mat 0 exampleMeasurement = some t_mat ∧
      (update_init exampleProcessing exampleMeasurement).m_pBuffer = some b ∧
      t_mat.rows = exampleMeasurement.getNumChannels ∧
      t_mat.cols = exampleMeasurement.getMultiArraySize ∧
      (∀ i, i < exampleMeasurement.getMultiArraySize → ∃ v, t_mat.col i = some v ∧
        exampleMeasurement.getMultiSampleArray[i]? = some v) ∧
      (b.blocks.length < b.capacity →
        update 0 exampleProcessing (.rtmsa exampleMeasurement) =
          .returned { update_init exampleProcessing exampleMeasurement with
            m_pBuffer := some { b with blocks := b.blocks ++ [t_mat] } }) ∧
      (¬ b.blocks.length < b.capacity → b.released = false →
        update 0 exampleProcessing (.rtmsa exampleMeasurement) =
          .suspended (update_init exampleProcessing exampleMeasurement)) :=
  ⟨⟨rfl, rfl, by decide⟩,
    update_pushes_sample_matrix 0 exampleProcessing exampleMeasurement rfl rfl (by decide)⟩

theorem update_init_spectra {α : Type} (s : NoiseEstimate α)
    (pRTMSA : NewRealTimeMultiSampleArray α) :
    (update_init s pRTMSA).appended = s.appended ∧
    (update_init s pRTMSA).published = s.published ∧
    (update_init s pRTMSA).m_qVecSpecData = s.m_qVecSpecData ∧
    (update_init s pRTMSA).pc = s.pc := by
  simp only [update_init]
  split <;> split <;> simp_all

theorem update_spectra {α : Type} (fill : α) (s s1 : NoiseEstimate α)
    (pMeasurement : NewMeasurement α) (h : update fill s pMeasurement = .returned s1) :
    s1.appended = s.appended ∧ s1.published = s.published ∧
    s1.m_qVecSpecData = s.m_qVecSpecData ∧ s1.pc = s.pc := by
  cases pMeasurement with
  | other =>
    simp only [update, Outcome.returned.injEq] at h
    subst h
    exact ⟨rfl, rfl, rfl, rfl⟩
  | rtmsa pRTMSA =>
    have hi := update_init_spectra s pRTMSA
    simp only [update] at h
    split at h
    · split at h
      · split at h
        · simp only [Outcome.returned.injEq] at h
          subst h
          exact hi
        · cases h
      · cases h
    · simp only [Outcome.returned.injEq] at h
      subst h
      exact hi

theorem stop_spectra {α : Type} (s s1 : NoiseEstimate α) (h : stop s = some s1) :
    s1.appended = s.appended ∧ s1.published = s.published ∧
    s1.m_qVecSpecData = s.m_qVecSpecData ∧ s1.pc = s.pc := by
  simp only [stop] at h
  split at h
  · cases h
  · split at h
    · split at h
      · cases h
      · simp only [Option.some.injEq] at h
        subst h
        exact ⟨rfl, rfl, rfl, rfl⟩
    · simp only [Option.some.injEq] at h
      subst h
      exact ⟨rfl, rfl, rfl, rfl⟩

theorem SpectraInOrder_runStep {α : Type} (fill : α) (s s1 : NoiseEstimate α)
    (hs : SpectraInOrder s) (h : runStep fill s = some s1) : SpectraInOrder s1 := by
  obtain ⟨heq, hpub⟩ := hs
  simp only [runStep] at h
  split at h
  · cases h; exact ⟨heq, hpub⟩
  · split at h
    · cases h; exact ⟨heq, hpub⟩
    · cases h; exact ⟨heq, by simp⟩
  · cases h; exact ⟨heq, by simp⟩
  · split at h
    · split at h
      · cases h; exact ⟨heq, by simp⟩
      · cases h; exact ⟨heq, hpub⟩
    · split at h
      · cases h
      · cases h; exact ⟨heq, by simp⟩
  · split at h
    · split at h
      · cases h; exact ⟨heq, hpub⟩
      · cases h; exact ⟨heq, by simp⟩
    · cases h
  · split at h
    · rename_i hpos
      cases h
      exact ⟨heq, fun _ => List.ne_nil_of_length_pos hpos⟩
    · cases h; exact ⟨heq, by simp⟩
  · split at h
    · cases h
    · rename_i spec rest hq
      cases h
      refine ⟨?_, by simp⟩
      simp only [heq, hq, List.append_assoc, List.singleton_append]

theorem SpectraInOrder_step {α : Type} (fill : α) (s s1 : NoiseEstimate α) (e : Event α)
    (hs : SpectraInOrder s) (h : step fill s e = some s1) : SpectraInOrder s1 := by
  cases e with
  | update pMeasurement =>
    simp only [step] at h
    split at h
    · rename_i s2 hu
      cases h
      obtain ⟨h1, h2, h3, h4⟩ := update_spectra fill s _ pMeasurement hu
      simpa only [SpectraInOrder, h1, h2, h3, h4] using hs
    · cases h; exact hs
    · cases h
  | appendNoiseSpectrum t_send =>
    simp only [step, Option.some.injEq] at h
    subst h
    refine ⟨?_, fun _ => by simp [appendNoiseSpectrum]⟩
    simp only [appendNoiseSpectrum, hs.1, List.append_assoc]
  | start =>
    simp only [step, start, Option.some.injEq] at h
    subst h
    split
    · exact ⟨hs.1, by simp⟩
    · exact hs
  | stop =>
    obtain ⟨h1, h2, h3, h4⟩ := stop_spectra s s1 h
    simpa only [SpectraInOrder, h1, h2, h3, h4] using hs
  | run => exact SpectraInOrder_runStep fill s s1 hs h

theorem SpectraInOrder_exec {α : Type} (fill : α) (evs : List (Event α))
    (s s1 : NoiseEstimate α) (hs : SpectraInOrder s) (h : exec fill s evs = some s1) :
    SpectraInOrder s1 := by
  induction evs generalizing s with
  | nil =>
    simp only [exec, List.foldlM_nil, pure, Option.some.injEq] at h
    exact h ▸ hs
  | cons e es ih =>
    simp only [exec, List.foldlM_cons] at h
    cases hstep : step fill s e with
    | none => simp [hstep] at h
    | some s2 =>
      rw [hstep] at h
      exact ih s2 (SpectraInOrder_step fill s s2 e hs hstep) h

theorem SpectraInOrder_new (α : Type) : SpectraInOrder (NoiseEstimate.new α) := by
  simp [SpectraInOrder, NoiseEstimate.new]

/-- C9: whatever the interleaving of measurements, `appendNoiseSpectrum` calls,
`start`, `stop` and steps of the `run()` loop, the spectra that `run()` has
handed to the output connector are an initial segment of the spectra handed to
`appendNoiseSpectrum`, in the same order. -/
theorem published_initial_segment_of_appended {α : Type} (fill : α) (evs : List (Event α))
    (s : NoiseEstimate α) (h : exec fill (NoiseEstimate.new α) evs = some s) :
    s.published <+: s.appended := by
  have hinv := SpectraInOrder_exec fill evs _ s (SpectraInOrder_new α) h
  exact ⟨s.m_qVecSpecData, hinv.1.symm⟩

theorem published_initial_segment_of_appended_witness :
    exec 0 (NoiseEstimate.new Int) publishOne = some publishOneResult ∧
    publishOneResult.published <+: publishOneResult.appended :=
  ⟨by decide, published_initial_segment_of_appended 0 publishOne publishOneResult (by decide)⟩

/-- C10, as stated, fails: after `stopWithPendingSpectrum` the `run()` loop has
ended (the worker is no longer running) and the spectrum handed to
`appendNoiseSpectrum` was never published and is still pending in
`m_qVecSpecData`. -/
theorem run_loop_ends_with_pending_spectrum :
    (exec 0 (NoiseEstimate.new Int) stopWithPendingSpectrum).map
        (fun s => (s.pc, s.appended, s.published, s.m_qVecSpecData)) =
      some (.notRunning, [exampleSpectrum], [], [exampleSpectrum]) := by
  decide

/-- C10, amended: every spectrum handed to `appendNoiseSpectrum` is published at
most once, in arrival order, and leaves `m_qVecSpecData` when it is published:
in every reachable state the spectra handed in are exactly the published ones
followed by the pending ones. -/
theorem appended_eq_published_append_pending {α : Type} (fill : α) (evs : List (Event α))
    (s : NoiseEstimate α) (h : exec fill (NoiseEstimate.new α) evs = some s) :
    s.appended = s.published ++ s.m_qVecSpecData :=
  (SpectraInOrder_exec fill evs _ s (SpectraInOrder_new α) h).1

theorem appended_eq_published_append_pending_witness :
    exec 0 (NoiseEstimate.new Int) publishOne = some publishOneResult ∧
    publishOneResult.appended = publishOneResult.published ++ publishOneResult.m_qVecSpecData :=
  ⟨by decide, appended_eq_published_append_pending 0 publishOne publishOneResult (by decide)⟩

end NoiseEstimatePlugin

namespace NoiseEstimatePlugin

/-- C11, as stated, fails: `stop()` called after the estimator exists and before
`m_bProcessData` is set returns with the running flag cleared and the buffer
neither released nor cleared (the `if(m_bProcessData)` guard), and `stop()`
called before any measurement has arrived dereferences the null `m_pRtNoise`. -/
theorem stop_skips_buffer_release :
    (exec 0 (NoiseEstimate.new Int) stopBeforeProcessing).map
        (fun s => (s.m_bIsRunning, s.m_bProcessData, s.m_pBuffer.map fun b => b.released)) =
      some (false, false, some false) ∧
    exec 0 (NoiseEstimate.new Int) stopBeforeData = none := by
  decide

/-- C11, amended: a call of `stop()` made once `run()` has constructed the
estimator clears the running flag and stops the estimator; with processing
enabled it then releases the buffer and clears it, so that the buffer holds no
queued block when `stop()` returns; with processing not enabled it leaves the
buffer as it is. -/
theorem stop_effect {α : Type} (s : NoiseEstimate α) (rt : RtNoise α)
    (hrt : s.m_pRtNoise = some rt) :
    (∀ b, s.m_bProcessData = true → s.m_pBuffer = some b →
      stop s = some { s with
        m_bIsRunning := false
        m_pRtNoise := some { rt with running := false }
        m_pBuffer := some { b with released := true, blocks := [] } }) ∧
    (s.m_bProcessData = false →
      stop s = some { s with
        m_bIsRunning := false
        m_pRtNoise := some { rt with running := false } }) := by
  constructor
  · intro b hp hb
    simp [stop, hrt, hp, hb]
  · intro hp
    simp [stop, hrt, hp]

theorem stop_effect_witness :
    exampleRunning.m_pRtNoise =
      some { fftLength := 16384, info := { nchan := 2 }, running := true } ∧
    (stop exampleRunning).map (fun s => (s.m_bIsRunning, s.m_pBuffer.map fun b => b.blocks)) =
      some (false, some []) :=
  ⟨rfl, by
    rw [(stop_effect exampleRunning _ rfl).1 _ rfl rfl]
    rfl⟩

/-- C12: `stop()` returns while the worker is still inside `run()`.  After
`stopWhileLooping` the call of `stop()` has returned, the worker stands at the
`pop`, and its next step pops from the released buffer and feeds the
estimator. -/
theorem stop_returns_before_run_ends :
    (exec 0 (NoiseEstimate.new Int) stopWhileLooping).map
        (fun s => (s.m_bIsRunning, s.pc)) = some (false, .pop) ∧
    (exec 0 (NoiseEstimate.new Int) (stopWhileLooping ++ [.run])).map
        (fun s => (s.pc, s.m_pRtNoise.map fun rt => rt.received.length)) =
      some (.sizeTest, some 1) := by
  decide

/-- C14, as stated, fails: with the stored setting 0, `init()` and `start()` go
through, `start()` returns `true`, and `run()` constructs the estimator with
window length 0. -/
theorem zero_window_length_accepted :
    startResult (init (some 0) (NoiseEstimate.new Int)) = some true ∧
    (exec 0 (init (some 0) (NoiseEstimate.new Int))
        [.start, .update (.rtmsa exampleMeasurement), .run]).map
        (fun s => s.m_pRtNoise.map fun rt => (rt.fftLength, rt.running)) =
      some (some (0, true)) := by
  decide

/-- C14, amended: the window length is not validated.  For every stored setting
`v` (zero and negative values included) `init()` stores `v`, `start()` returns
`true`, and once a measurement has brought the channel metadata `run()`
constructs and starts the estimator with window length `v`. -/
theorem window_length_unvalidated {α : Type} (fill : α) (v : Int)
    (pRTMSA : NewRealTimeMultiSampleArray α) :
    (init (some v) (NoiseEstimate.new α)).m_iFFTlength = v ∧
    startResult (init (some v) (NoiseEstimate.new α)) = some true ∧
    ∃ s, exec fill (init (some v) (NoiseEstimate.new α))
        [.start, .update (.rtmsa pRTMSA), .run] = some s ∧
      ∃ rt, s.m_pRtNoise = some rt ∧ rt.fftLength = v ∧ rt.running = true := by
  refine ⟨rfl, rfl, ?_⟩
  simp [exec, step, start, init, NoiseEstimate.new, update, update_init, runStep]

/-- C15, as stated, fails: with the stored setting 1000 the window length after
`init()` is 1000, which is not a power of two. -/
theorem stored_window_length_not_power_of_two :
    (init (some 1000) (NoiseEstimate.new Int)).m_iFFTlength = 1000 ∧
    ¬ IsPowerOfTwo (init (some 1000) (NoiseEstimate.new Int)).m_iFFTlength := by
  refine ⟨rfl, ?_⟩
  rintro ⟨k, hk⟩
  have hk1 : (1000 : Int) = 2 ^ k := hk
  have hk2 : (1000 : Nat) = 2 ^ k := by exact_mod_cast hk1
  rcases Nat.lt_or_ge k 10 with hlt | hge
  · interval_cases k <;> omega
  · have : 2 ^ 10 ≤ 2 ^ k := Nat.pow_le_pow_right (by decide) hge
    omega

/-- C15, amended: after construction, and after `init()` with no stored
setting, the window length is 16384 = 2^14, a power of two; after `init()` with
a stored setting `v` it is `v`; and the estimator is constructed with the
window length `m_iFFTlength` has at that moment. -/
theorem window_length_default {α : Type} (fill : α) :
    (NoiseEstimate.new α).m_iFFTlength = 2 ^ 14 ∧
    IsPowerOfTwo (NoiseEstimate.new α).m_iFFTlength ∧
    (∀ s : NoiseEstimate α, (init none s).m_iFFTlength = 2 ^ 14 ∧
      IsPowerOfTwo (init none s).m_iFFTlength) ∧
    (∀ (v : Int) (s : NoiseEstimate α), (init (some v) s).m_iFFTlength = v) ∧
    (∀ (s : NoiseEstimate α) (info : FIFFLIB.FiffInfo), s.pc = .fiffWait →
      s.m_pFiffInfo = some info →
      ∃ s1 rt, runStep fill s = some s1 ∧ s1.m_pRtNoise = some rt ∧
        rt.fftLength = s.m_iFFTlength) := by
  refine ⟨rfl, ⟨14, rfl⟩, fun s => ⟨rfl, ⟨14, rfl⟩⟩, fun v s => rfl, ?_⟩
  intro s info hpc hinfo
  simp [runStep, hpc, hinfo]

end NoiseEstimatePlugin

namespace NoiseEstimatePlugin

theorem update_init_buffer {α : Type} (s : NoiseEstimate α)
    (pRTMSA : NewRealTimeMultiSampleArray α) :
    (∀ b, s.m_pBuffer = some b → (update_init s pRTMSA).m_pBuffer = some b) ∧
    (s.m_pBuffer = none → (update_init s pRTMSA).m_pBuffer = some
      { capacity := 64, rows := pRTMSA.getNumChannels, cols := pRTMSA.getMultiArraySize }) := by
  simp only [update_init]
  constructor
  · intro b hb
    split <;> split <;> simp_all
  · intro hb
    split <;> split <;> simp_all

theorem update_init_fiffInfo {α : Type} (s : NoiseEstimate α)
    (pRTMSA : NewRealTimeMultiSampleArray α) :
    (∀ i, s.m_pFiffInfo = some i → (update_init s pRTMSA).m_pFiffInfo = some i) ∧
    (s.m_pFiffInfo = none → (update_init s pRTMSA).m_pFiffInfo = some pRTMSA.info) := by
  simp only [update_init]
  constructor
  · intro i hi
    split <;> split <;> simp_all
  · intro hi
    split <;> split <;> simp_all

theorem update_init_rest {α : Type} (s : NoiseEstimate α)
    (pRTMSA : NewRealTimeMultiSampleArray α) :
    (update_init s pRTMSA).m_pRtNoise = s.m_pRtNoise ∧
    (update_init s pRTMSA).m_bIsRunning = s.m_bIsRunning ∧
    (update_init s pRTMSA).m_iFFTlength = s.m_iFFTlength := by
  simp only [update_init]
  split <;> split <;> simp_all

theorem push_cases {α : Type} (b b1 : CircularMatrixBuffer α) (t : MatrixX α)
    (h : b.push t = some b1) :
    b1.capacity = b.capacity ∧ b1.rows = b.rows ∧ b1.cols = b.cols ∧
    b1.released = b.released ∧ (b1.blocks = b.blocks ++ [t] ∨ b1.blocks = b.blocks) := by
  simp only [CircularMatrixBuffer.push] at h
  split at h
  · cases h; simp
  · split at h
    · cases h; simp
    · cases h

theorem update_state_cases {α : Type} (fill : α) (s s1 : NoiseEstimate α)
    (pRTMSA : NewRealTimeMultiSampleArray α)
    (h : (update fill s (.rtmsa pRTMSA)).state? = some s1) :
    s1 = update_init s pRTMSA ∨
    (s.m_bProcessData = true ∧ ∃ b t b1, (update_init s pRTMSA).m_pBuffer = some b ∧
      update_t_mat fill pRTMSA = some t ∧ b.push t = some b1 ∧
      s1 = { update_init s pRTMSA with m_pBuffer := some b1 }) := by
  have hp := update_init_m_bProcessData s pRTMSA
  simp only [update] at h
  split at h
  · rename_i hproc
    split at h
    · rename_i t b ht hb
      split at h
      · rename_i b1 hpush
        simp only [Outcome.state?, Option.some.injEq] at h
        exact Or.inr ⟨hp ▸ hproc, b, t, b1, hb, ht, hpush, h.symm⟩
      · simp only [Outcome.state?, Option.some.injEq] at h
        exact Or.inl h.symm
    · simp [Outcome.state?] at h
  · simp only [Outcome.state?, Option.some.injEq] at h
    exact Or.inl h.symm

/-- C16: `update` creates the sample buffer only when there is none, with
capacity 64 and the channel count and block length of the measurement at hand;
an existing buffer keeps its capacity, row count and column count through
every later `update`, whatever the shape of the incoming block, and a
measurement that is no sample array creates nothing. -/
theorem update_buffer_creation {α : Type} (fill : α) (s s1 : NoiseEstimate α)
    (pMeasurement : NewMeasurement α)
    (h : (update fill s pMeasurement).state? = some s1) :
    (∀ b, s.m_pBuffer = some b → ∃ b1, s1.m_pBuffer = some b1 ∧
      b1.capacity = b.capacity ∧ b1.rows = b.rows ∧ b1.cols = b.cols) ∧
    (s.m_pBuffer = none → pMeasurement = .other → s1.m_pBuffer = none) ∧
    (∀ pRTMSA, s.m_pBuffer = none → pMeasurement = .rtmsa pRTMSA →
      ∃ b1, s1.m_pBuffer = some b1 ∧ b1.capacity = 64 ∧
        b1.rows = pRTMSA.getNumChannels ∧ b1.cols = pRTMSA.getMultiArraySize) := by
  cases pMeasurement with
  | other =>
    simp only [update, Outcome.state?, Option.some.injEq] at h
    subst h
    refine ⟨fun b hb => ⟨b, hb, rfl, rfl, rfl⟩, fun hb _ => hb, fun p _ hp => by cases hp⟩
  | rtmsa p =>
    obtain ⟨hsome, hnone⟩ := update_init_buffer s p
    rcases update_state_cases fill s s1 p h with h1 | ⟨_, b, t, b1, hb, _, hpush, h1⟩
    · subst h1
      refine ⟨fun b hb => ⟨b, hsome b hb, rfl, rfl, rfl⟩, fun _ hm => (by cases hm), ?_⟩
      intro q hb hq
      cases hq
      exact ⟨_, hnone hb, rfl, rfl, rfl⟩
    · obtain ⟨hc, hr, hcl, _, _⟩ := push_cases b b1 t hpush
      subst h1
      refine ⟨?_, fun _ hm => (by cases hm), ?_⟩
      · intro b0 hb0
        have : b = b0 := by
          have := hsome b0 hb0
          rw [hb] at this
          exact Option.some.inj this
        subst this
        exact ⟨b1, rfl, hc, hr, hcl⟩
      · intro q hb0 hq
        cases hq
        have hbq := hnone hb0
        rw [hb] at hbq
        have hbq := Option.some.inj hbq
        subst hbq
        exact ⟨b1, rfl, hc, hr, hcl⟩

theorem update_buffer_creation_witness :
    (update 0 exampleRunning (.rtmsa otherShapeMeasurement)).state? =
      some { exampleRunning with
        m_pBuffer := some
          { capacity := 64, rows := 2, cols := 3,
            blocks := [{ rows := 2, cols := 3, coeff := [[1, -2], [3, -4], [5, -6]] },
              { rows := 3, cols := 1, coeff := [[7, 8, 9]] }] } } ∧
    ∀ b, exampleRunning.m_pBuffer = some b →
      ∃ b1, ({ exampleRunning with
        m_pBuffer := some
          { capacity := 64, rows := 2, cols := 3,
            blocks := [{ rows := 2, cols := 3, coeff := [[1, -2], [3, -4], [5, -6]] },
              { rows := 3, cols := 1, coeff := [[7, 8, 9]] }] } } :
          NoiseEstimate Int).m_pBuffer = some b1 ∧
        b1.capacity = b.capacity ∧ b1.rows = b.rows ∧ b1.cols = b.cols :=
  ⟨by decide,
    (update_buffer_creation 0 exampleRunning _ (.rtmsa otherShapeMeasurement) (by decide)).1⟩

end NoiseEstimatePlugin

namespace NoiseEstimatePlugin

theorem update_fiffInfo {α : Type} (fill : α) (s s1 : NoiseEstimate α)
    (pMeasurement : NewMeasurement α)
    (h : (update fill s pMeasurement).state? = some s1) :
    (∀ i, s.m_pFiffInfo = some i → s1.m_pFiffInfo = some i) ∧
    (s.m_pFiffInfo = none → pMeasurement = .other → s1.m_pFiffInfo = none) ∧
    (∀ pRTMSA, s.m_pFiffInfo = none → pMeasurement = .rtmsa pRTMSA →
      s1.m_pFiffInfo = some pRTMSA.info) := by
  cases pMeasurement with
  | other =>
    simp only [update, Outcome.state?, Option.some.injEq] at h
    subst h
    exact ⟨fun i hi => hi, fun hn _ => hn, fun p _ hp => by cases hp⟩
  | rtmsa p =>
    obtain ⟨hsome, hnone⟩ := update_init_fiffInfo s p
    have hs1 : s1.m_pFiffInfo = (update_init s p).m_pFiffInfo := by
      rcases update_state_cases fill s s1 p h with h1 | ⟨_, b, t, b1, _, _, _, h1⟩ <;>
        subst h1 <;> rfl
    refine ⟨fun i hi => hs1 ▸ hsome i hi, fun _ hm => (by cases hm), ?_⟩
    intro q hn hq
    cases hq
    exact hs1 ▸ hnone hn

theorem WaitsForFiffInfo_step {α : Type} (fill : α) (s s1 : NoiseEstimate α) (e : Event α)
    (hs : WaitsForFiffInfo s) (h : step fill s e = some s1) : WaitsForFiffInfo s1 := by
  intro hnone
  cases e with
  | update pMeasurement =>
    simp only [step] at h
    split at h
    · rename_i s2 hu
      cases h
      have hst : (update fill s pMeasurement).state? = some s1 := by rw [hu]; rfl
      obtain ⟨hsome, _, hrt⟩ := update_fiffInfo fill s s1 pMeasurement hst
      cases pMeasurement with
      | other =>
        simp only [update, Outcome.returned.injEq] at hu
        subst hu
        exact hs hnone
      | rtmsa p =>
        cases hsi : s.m_pFiffInfo with
        | none => rw [hrt p hsi rfl] at hnone; cases hnone
        | some i => rw [hsome i hsi] at hnone; cases hnone
    · cases h; exact hs hnone
    · cases h
  | appendNoiseSpectrum t_send =>
    simp only [step, Option.some.injEq] at h
    subst h
    exact hs hnone
  | start =>
    simp only [step, start, Option.some.injEq] at h
    subst h
    split
    · rename_i hpc
      simp only [hpc, if_true, Option.getD_some] at hnone
      exact ⟨(hs hnone).1, trivial⟩
    · rename_i hpc
      simp only [hpc, if_false, Option.getD_none] at hnone
      exact hs hnone
  | stop =>
    simp only [step, stop] at h
    split at h
    · cases h
    · rename_i rt hrt
      have hsn : s.m_pFiffInfo = none := by
        split at h
        · split at h
          · cases h
          · cases h; exact hnone
        · cases h; exact hnone
      rw [(hs hsn).1] at hrt
      cases hrt
  | run =>
    simp only [step, runStep] at h
    split at h
    · cases h; exact hs hnone
    · split at h
      · cases h; exact hs hnone
      · rename_i info hinfo
        cases h
        rw [hinfo] at hnone
        cases hnone
    all_goals
      rename_i hpc
      have hsn : s.m_pFiffInfo = none := by
        first
          | (cases h; exact hnone)
          | (split at h <;> first
              | (cases h; exact hnone)
              | cases h
              | (split at h <;> first | (cases h; exact hnone) | cases h))
      have := (hs hsn).2
      rw [hpc] at this
      exact this.elim

theorem WaitsForFiffInfo_exec {α : Type} (fill : α) (evs : List (Event α))
    (s s1 : NoiseEstimate α) (hs : WaitsForFiffInfo s) (h : exec fill s evs = some s1) :
    WaitsForFiffInfo s1 := by
  induction evs generalizing s with
  | nil =>
    simp only [exec, List.foldlM_nil, pure, Option.some.injEq] at h
    exact h ▸ hs
  | cons e es ih =>
    simp only [exec, List.foldlM_cons] at h
    cases hstep : step fill s e with
    | none => simp [hstep] at h
    | some s2 =>
      rw [hstep] at h
      exact ih s2 (WaitsForFiffInfo_step fill s s2 e hs hstep) h

/-- C17: `update` sets `m_pFiffInfo` only when it is unset, from the
sample-array measurement at hand, and leaves it as it is otherwise; as long as
it is unset, in every reachable state, `run()` has not constructed the
estimator and has not entered its loop, and a step of `run()` changes
nothing. -/
theorem fiffInfo_from_first_measurement {α : Type} (fill : α) :
    (∀ (s s1 : NoiseEstimate α) (pMeasurement : NewMeasurement α),
      (update fill s pMeasurement).state? = some s1 →
      (∀ i, s.m_pFiffInfo = some i → s1.m_pFiffInfo = some i) ∧
      (s.m_pFiffInfo = none → pMeasurement = .other → s1.m_pFiffInfo = none) ∧
      (∀ pRTMSA, s.m_pFiffInfo = none → pMeasurement = .rtmsa pRTMSA →
        s1.m_pFiffInfo = some pRTMSA.info)) ∧
    (∀ (evs : List (Event α)) (s : NoiseEstimate α),
      exec fill (NoiseEstimate.new α) evs = some s → s.m_pFiffInfo = none →
      s.m_pRtNoise = none ∧ s.pc.beforeEstimator ∧ runStep fill s = some s) := by
  refine ⟨fun s s1 m h => update_fiffInfo fill s s1 m h, ?_⟩
  intro evs s h hnone
  have hinv := WaitsForFiffInfo_exec fill evs _ s
    (by intro _; exact ⟨rfl, trivial⟩) h hnone
  refine ⟨hinv.1, hinv.2, ?_⟩
  have hpc := hinv.2
  cases hp : s.pc <;> rw [hp] at hpc <;> simp [Pc.beforeEstimator] at hpc <;>
    simp [runStep, hp, hnone]

end NoiseEstimatePlugin

namespace NoiseEstimatePlugin

theorem queued_update_init {α : Type} (s : NoiseEstimate α)
    (pRTMSA : NewRealTimeMultiSampleArray α) :
    queued (update_init s pRTMSA) = queued s := by
  obtain ⟨hsome, hnone⟩ := update_init_buffer s pRTMSA
  cases hb : s.m_pBuffer with
  | none => simp [queued, hnone hb, hb]
  | some b => simp [queued, hsome b hb, hb]

/-- C29: `update` changes the queue of the buffer only for a sample-array
measurement received while `m_bProcessData` is true.  A measurement of another
kind leaves the whole plugin as it is; a sample array received while
`m_bProcessData` is false is not buffered; a well-formed sample array received
while `m_bProcessData` is true is handed to `push`, and goes in at the back of
the queue when the buffer has room. -/
theorem update_pushes_iff {α : Type} (fill : α) (s : NoiseEstimate α) :
    update fill s .other = .returned s ∧
    (∀ pRTMSA, s.m_bProcessData = false →
      update fill s (.rtmsa pRTMSA) = .returned (update_init s pRTMSA) ∧
      queued (update_init s pRTMSA) = queued s) ∧
    (∀ pMeasurement s1, (update fill s pMeasurement).state? = some s1 →
      queued s1 ≠ queued s →
      s.m_bProcessData = true ∧ ∃ pRTMSA, pMeasurement = .rtmsa pRTMSA) ∧
    (∀ pRTMSA, s.m_bProcessData = true →
      pRTMSA.getMultiSampleArray.length = pRTMSA.getMultiArraySize →
      (∀ v ∈ pRTMSA.getMultiSampleArray, v.length = pRTMSA.getNumChannels) →
      (∀ b, s.m_pBuffer = some b → b.blocks.length < b.capacity) →
      ∃ s1 t_mat, update fill s (.rtmsa pRTMSA) = .returned s1 ∧
        update_t_mat fill pRTMSA = some t_mat ∧ queued s1 = queued s ++ [t_mat]) := by
  refine ⟨rfl, ?_, ?_, ?_⟩
  · intro p hp
    have hp1 : (update_init s p).m_bProcessData = false := by
      rw [update_init_m_bProcessData, hp]
    exact ⟨by simp [update, hp1], queued_update_init s p⟩
  · intro m s1 h hne
    cases m with
    | other =>
      simp only [update, Outcome.state?, Option.some.injEq] at h
      subst h
      exact absurd rfl hne
    | rtmsa p =>
      rcases update_state_cases fill s s1 p h with h1 | ⟨hproc, _⟩
      · subst h1
        exact absurd (queued_update_init s p) hne
      · exact ⟨hproc, p, rfl⟩
  · intro p hproc hlen hrows hroom
    have ht := update_t_mat_eq fill p hlen hrows
    obtain ⟨b, hb⟩ := update_init_m_pBuffer s p
    have hp1 : (update_init s p).m_bProcessData = true := by
      rw [update_init_m_bProcessData, hproc]
    have hroomb : b.blocks.length < b.capacity := by
      obtain ⟨hsome, hnone⟩ := update_init_buffer s p
      cases hsb : s.m_pBuffer with
      | none =>
        have := hnone hsb
        rw [hb] at this
        cases this
        simp
      | some b0 =>
        have := hsome b0 hsb
        rw [hb] at this
        cases this
        exact hroom b hsb
    refine ⟨{ update_init s p with
        m_pBuffer := some { b with blocks := b.blocks ++
          [{ rows := p.getNumChannels, cols := p.getMultiArraySize,
             coeff := p.getMultiSampleArray }] } },
      _, ?_, ht, ?_⟩
    · simp only [update, hp1, if_true, ht, hb, CircularMatrixBuffer.push, hroomb]
    have hq := queued_update_init s p
    simp only [queued, hb, Option.map_some', Option.getD_some] at hq ⊢
    rw [hq]

end NoiseEstimatePlugin

namespace BabyMEGInfo

theorem scanField_skip (pre rest : List Char) (i : Nat) (st : FieldScan)
    (hpre : ':' ∉ pre) (hcn : st.cn ≠ 2) :
    scanField (pre ++ rest) i st = scanField rest (i + pre.length) st := by
  induction pre generalizing i with
  | nil => simp
  | cons c cs ih =>
    have hc : c ≠ ':' := fun h => hpre (by simp [h])
    have hcs : ':' ∉ cs := fun h => hpre (by simp [h])
    have hstep : scanField (c :: cs ++ rest) i st = scanField (cs ++ rest) (i + 1) st := by
      simp only [List.cons_append, scanField, hc, if_false, hcn]
      rfl
    rw [hstep, ih (i + 1) hcs, List.length_cons]
    congr 1
    omega

theorem scanField_field (pre m post : List Char) (hpre : ':' ∉ pre) (hm : ':' ∉ m) :
    scanField (pre ++ ':' :: (m ++ ':' :: post)) 0 {} =
      { Start := false, bPos := pre.length, ePos := pre.length + 1 + m.length, cn := 2 } := by
  rw [scanField_skip pre _ 0 {} hpre (by decide)]
  simp only [scanField, if_true, Bool.not_false, Nat.zero_add]
  have h1 : (1 : Nat) ≠ 2 := by decide
  simp only [h1, if_false]
  rw [scanField_skip m _ _ _ hm (by simp)]
  simp [scanField]

theorem MGH_LM_Get_Field_eq (pre m post : List Char) (hpre : ':' ∉ pre) (hm : ':' ∉ m) :
    MGH_LM_Get_Field (pre ++ ':' :: (m ++ ':' :: post)) = ':' :: m := by
  simp only [MGH_LM_Get_Field, scanField_field pre m post hpre hm, mid]
  have h1 : ((pre.length + 1 + m.length : Nat) : Int) - (pre.length : Int) =
      ((m.length + 1 : Nat) : Int) := by
    push_cast; ring
  rw [h1]
  have h2 : ¬ ((m.length + 1 : Nat) : Int) < 0 := by omega
  simp only [h2, if_false, Int.toNat_ofNat, List.drop_left, List.take_succ_cons]
  simp

end BabyMEGInfo

namespace BabyMEGInfo

theorem mid_middle (done cur rest : List Char) :
    mid (done ++ cur ++ rest) done.length
      (((done.length + cur.length : Nat) : Int) - (done.length : Int)) = cur := by
  have h1 : ((done.length + cur.length : Nat) : Int) - (done.length : Int) =
      ((cur.length : Nat) : Int) := by
    push_cast; ring
  have h2 : ¬ ((cur.length : Nat) : Int) < 0 := by omega
  rw [h1]
  simp only [mid, h2, if_false, Int.toNat_ofNat, List.append_assoc, List.drop_left,
    List.take_left]

theorem exactLoop_eq (cmdstr done cur rest : List Char) (sList : List (List Char))
    (h : cmdstr = done ++ cur ++ rest) :
    exactLoop cmdstr rest (done.length + cur.length) done.length sList =
      sList ++ recordsFrom cur rest := by
  induction rest generalizing done cur sList with
  | nil => simp [exactLoop, recordsFrom]
  | cons c cs ih =>
    by_cases hc : c = ';'
    · subst hc
      simp only [exactLoop, recordsFrom, if_true]
      have hmid : mid cmdstr done.length
          (((done.length + cur.length : Nat) : Int) - (done.length : Int)) = cur := by
        rw [h]; exact mid_middle done cur _
      rw [hmid]
      have := ih (done ++ cur ++ [';']) [] (sList ++ [cur]) (by simp [h])
      simp only [List.length_append, List.length_singleton, List.length_nil,
        Nat.add_zero] at this
      rw [this]
      simp
    · simp only [exactLoop, recordsFrom, hc, if_false]
      have := ih done (cur ++ [c]) sList (by simp [h])
      simp only [List.length_append, List.length_singleton] at this
      rw [← this]
      rfl

theorem MGH_LM_Exact_Single_Channel_Info_eq (cmdstr : List Char) :
    MGH_LM_Exact_Single_Channel_Info cmdstr = recordsFrom [] cmdstr := by
  have := exactLoop_eq cmdstr [] [] cmdstr [] rfl
  simpa [MGH_LM_Exact_Single_Channel_Info] using this

theorem recordsFrom_length (cur rest : List Char) :
    (recordsFrom cur rest).length = rest.count ';' := by
  induction rest generalizing cur with
  | nil => simp [recordsFrom]
  | cons c cs ih =>
    by_cases hc : c = ';'
    · subst hc; simp [recordsFrom, ih]
    · have hc1 : ¬ (c == ';') = true := by simpa using hc
      simp [recordsFrom, hc, ih, List.count_cons, hc1]

theorem recordsFrom_mem (cur rest : List Char) (hcur : ';' ∉ cur) :
    ∀ e ∈ recordsFrom cur rest, ';' ∉ e := by
  induction rest generalizing cur with
  | nil => simp [recordsFrom]
  | cons c cs ih =>
    by_cases hc : c = ';'
    · subst hc
      intro e he
      simp only [recordsFrom, if_true, List.mem_cons] at he
      rcases he with he | he
      · exact he ▸ hcur
      · exact ih [] (by simp) e he
    · simp only [recordsFrom, hc, if_false]
      exact ih (cur ++ [c]) (by
        intro h
        rcases List.mem_append.mp h with h | h
        · exact hcur h
        · simp at h; exact hc h.symm)

theorem recordsText_cons (r : List Char) (rs : List (List Char)) :
    recordsText (r :: rs) = r ++ ';' :: recordsText rs := by
  simp [recordsText]

theorem recordsFrom_text (cur rest : List Char) (hcur : ';' ∉ cur) :
    ∃ tail, ';' ∉ tail ∧ cur ++ rest = recordsText (recordsFrom cur rest) ++ tail := by
  induction rest generalizing cur with
  | nil => exact ⟨cur, hcur, by simp [recordsFrom, recordsText]⟩
  | cons c cs ih =>
    by_cases hc : c = ';'
    · subst hc
      obtain ⟨tail, ht, heq⟩ := ih [] (by simp)
      refine ⟨tail, ht, ?_⟩
      simp only [List.nil_append] at heq
      simp only [recordsFrom, if_true, recordsText_cons, List.append_assoc, List.cons_append]
      exact congrArg (fun x => cur ++ ';' :: x) heq
    · obtain ⟨tail, ht, heq⟩ := ih (cur ++ [c]) (by
        intro h
        rcases List.mem_append.mp h with h | h
        · exact hcur h
        · simp at h; exact hc h.symm)
      refine ⟨tail, ht, ?_⟩
      simp only [recordsFrom, hc, if_false]
      rw [← heq]
      simp

theorem recordsFrom_record (cur r rest : List Char) (hr : ';' ∉ r) :
    recordsFrom cur (r ++ ';' :: rest) = (cur ++ r) :: recordsFrom [] rest := by
  induction r generalizing cur with
  | nil => simp [recordsFrom]
  | cons c cs ih =>
    have hc : c ≠ ';' := fun h => hr (by simp [h])
    have hcs : ';' ∉ cs := fun h => hr (by simp [h])
    simp only [List.cons_append, recordsFrom, hc, if_false, List.append_eq]
    rw [ih (cur ++ [c]) hcs]
    simp

theorem recordsFrom_recordsText (records : List (List Char))
    (h : ∀ r ∈ records, ';' ∉ r) :
    recordsFrom [] (recordsText records) = records := by
  induction records with
  | nil => simp [recordsText, recordsFrom]
  | cons r rs ih =>
    have hr : ';' ∉ r := h r (by simp)
    have hrs : ∀ r ∈ rs, ';' ∉ r := fun x hx => h x (by simp [hx])
    rw [recordsText_cons, recordsFrom_record [] r _ hr, ih hrs]
    simp

end BabyMEGInfo

namespace BabyMEGInfo

theorem getElem?_at_length (a b : List Char) (c : Char) :
    (a ++ c :: b)[a.length]? = some c := by
  rw [List.getElem?_append_right (le_refl _)]
  simp

/-- C23: for a byte string with at least two `:`, the first behind `pre` and the
second behind the piece `m`, `MGH_LM_Get_Field` returns the `p2 - p1` bytes
from the first `:` on: the `:` followed by `m`, nothing of `pre` and nothing
from the second `:` on. -/
theorem MGH_LM_Get_Field_between_colons (pre m post : List Char)
    (hpre : ':' ∉ pre) (hm : ':' ∉ m) :
    MGH_LM_Get_Field (pre ++ ':' :: (m ++ ':' :: post)) = ':' :: m ∧
    MGH_LM_Get_Field (pre ++ ':' :: (m ++ ':' :: post)) =
      ((pre ++ ':' :: (m ++ ':' :: post)).drop pre.length).take
        ((pre.length + 1 + m.length) - pre.length) ∧
    (pre ++ ':' :: (m ++ ':' :: post))[pre.length]? = some ':' ∧
    (pre ++ ':' :: (m ++ ':' :: post))[pre.length + 1 + m.length]? = some ':' := by
  have h := MGH_LM_Get_Field_eq pre m post hpre hm
  refine ⟨h, ?_, ?_, ?_⟩
  · rw [h]
    have : pre.length + 1 + m.length - pre.length = m.length + 1 := by omega
    rw [this, List.drop_left, List.take_succ_cons]
    simp
  · exact getElem?_at_length pre _ ':'
  · have h1 : pre ++ ':' :: (m ++ ':' :: post) = (pre ++ ':' :: m) ++ ':' :: post := by simp
    have h2 : pre.length + 1 + m.length = (pre ++ ':' :: m).length := by simp; omega
    rw [h1, h2]
    exact getElem?_at_length _ post ':'

theorem MGH_LM_Get_Field_between_colons_witness :
    (':' ∉ "ab".toList ∧ ':' ∉ "464".toList) ∧
    MGH_LM_Get_Field "ab:464:5000:x".toList = ":464".toList :=
  ⟨by decide,
    (MGH_LM_Get_Field_between_colons "ab".toList "464".toList "5000:x".toList
      (by decide) (by decide)).1⟩

/-- C24: `MGH_LM_Exact_Single_Channel_Info` returns as many pieces as the text
has `;`, no piece contains a `;`, and the pieces, each followed by `;`, spell
the text up to and including its last `;`: what remains has no `;` and is
dropped. -/
theorem MGH_LM_Exact_Single_Channel_Info_pieces (cmdstr : List Char) :
    (MGH_LM_Exact_Single_Channel_Info cmdstr).length = cmdstr.count ';' ∧
    (∀ e ∈ MGH_LM_Exact_Single_Channel_Info cmdstr, ';' ∉ e) ∧
    ∃ tail, ';' ∉ tail ∧
      cmdstr = recordsText (MGH_LM_Exact_Single_Channel_Info cmdstr) ++ tail := by
  rw [MGH_LM_Exact_Single_Channel_Info_eq]
  refine ⟨recordsFrom_length [] cmdstr, recordsFrom_mem [] cmdstr (by simp), ?_⟩
  simpa using recordsFrom_text [] cmdstr (by simp)

end BabyMEGInfo

namespace BabyMEGInfo

theorem header_field (t rest : List Char) (ht : ':' ∉ t) :
    MGH_LM_Get_Field (':' :: (t ++ ':' :: rest)) = ':' :: t ∧
    (':' :: (t ++ ':' :: rest)).drop (MGH_LM_Get_Field (':' :: (t ++ ':' :: rest))).length =
      ':' :: rest := by
  have h := MGH_LM_Get_Field_eq [] t rest (by simp) ht
  simp only [List.nil_append] at h
  refine ⟨h, ?_⟩
  rw [h]
  simp

theorem parseHeader_info (conv : Conversions) (s : Para) (tn tl tf rest : List Char)
    (hn : ':' ∉ tn) (hl : ':' ∉ tl) (hf : ':' ∉ tf) :
    parseHeader conv s
        ('I' :: 'N' :: 'F' :: 'O' :: ':' :: (tn ++ ':' :: (tl ++ ':' :: (tf ++ ':' :: rest)))) =
      ({ s with chnNum := conv.toInt tn, dataLength := conv.toInt tl,
                sfreq := conv.toDouble tf }, some (':' :: rest)) := by
  obtain ⟨h1, h1d⟩ := header_field tn (tl ++ ':' :: (tf ++ ':' :: rest)) hn
  obtain ⟨h2, h2d⟩ := header_field tl (tf ++ ':' :: rest) hl
  obtain ⟨h3, h3d⟩ := header_field tf rest hf
  simp only [parseHeader, List.take, List.drop, if_true]
  rw [h1d, h1, h2d, h2, h3d, h3]
  simp

theorem appendChannel_withHeaderOf (r s : Para) (name : List Char)
    (schp : List (List Char)) :
    appendChannel (r.withHeaderOf s) name schp =
      (appendChannel r name schp).map fun r1 => r1.withHeaderOf s := by
  simp only [appendChannel]
  split <;> rfl

theorem channelLoop_withHeaderOf (t rest : List Char) (z : Nat) (r s : Para) :
    channelLoop t rest z (r.withHeaderOf s) =
      (channelLoop t rest z r).map fun r1 => r1.withHeaderOf s := by
  induction rest generalizing z r with
  | nil => rfl
  | cons c cs ih =>
    by_cases hc : c = '|'
    · simp only [channelLoop, hc, if_true, appendChannel_withHeaderOf]
      cases appendChannel r (t.take z) (split ',' (t.drop z)) with
      | none => rfl
      | some r1 => simp [ih]
    · simp only [channelLoop, hc, if_false, ih]

theorem foldlM_withHeaderOf (ts : List (List Char)) (r s : Para) :
    ts.foldlM (fun s t => channelLoop t t 0 s) (r.withHeaderOf s) =
      (ts.foldlM (fun s t => channelLoop t t 0 s) r).map fun r1 => r1.withHeaderOf s := by
  induction ts generalizing r with
  | nil => rfl
  | cons t ts ih =>
    simp only [List.foldlM_cons, channelLoop_withHeaderOf]
    cases channelLoop t t 0 r with
    | none => rfl
    | some r1 => simp [ih]

theorem MGH_LM_Get_Channel_Info_withHeaderOf (s : Para) (cmdstr : List Char) :
    MGH_LM_Get_Channel_Info s cmdstr =
      (MGH_LM_Get_Channel_Info Para.fresh cmdstr).map fun r => r.withHeaderOf s := by
  have h : clearLists s = (clearLists Para.fresh).withHeaderOf s := rfl
  simp only [MGH_LM_Get_Channel_Info, h, foldlM_withHeaderOf]

end BabyMEGInfo

namespace BabyMEGInfo

theorem appendChannel_eq (s : Para) (name : List Char) (schp : List (List Char))
    (h : 15 ≤ schp.length) :
    ∃ s1, appendChannel s name schp = some s1 ∧
      s1.lm_ch_names = s.lm_ch_names ++ [name] ∧
      s1.lm_ch_scales = s.lm_ch_scales ++ [schp.getD 0 []] ∧
      s1.lm_ch_coiltype = s.lm_ch_coiltype ++ [schp.getD 13 []] ∧
      s1.lm_ch_calicoef = s.lm_ch_calicoef ++ [schp.getD 14 []] ∧
      ∀ n, s.aligned n → s1.aligned (n + 1) := by
  refine ⟨_, if_pos h, rfl, rfl, rfl, rfl, ?_⟩
  intro n hs
  obtain ⟨h1, h2, h3, h4, h5, h6, h7, h8, h9, h10, h11, h12, h13, h14, h15, h16⟩ := hs
  refine ⟨?_, ?_, ?_, ?_, ?_, ?_, ?_, ?_, ?_, ?_, ?_, ?_, ?_, ?_, ?_, ?_⟩ <;>
    simp only [List.length_append, List.length_singleton, h1, h2, h3, h4, h5, h6, h7, h8,
      h9, h10, h11, h12, h13, h14, h15, h16]

theorem appendChannel_aligned (s s1 : Para) (name : List Char) (schp : List (List Char))
    (n : Nat) (h : appendChannel s name schp = some s1) (hs : s.aligned n) :
    s1.aligned (n + 1) := by
  by_cases h15 : 15 ≤ schp.length
  · obtain ⟨s2, h2, _, _, _, _, hal⟩ := appendChannel_eq s name schp h15
    rw [h2] at h
    exact Option.some.inj h ▸ hal n hs
  · rw [appendChannel, if_neg h15] at h
    cases h

theorem channelLoop_aligned (t rest : List Char) (z : Nat) (s s1 : Para) (n : Nat)
    (h : channelLoop t rest z s = some s1) (hs : s.aligned n) : ∃ m, s1.aligned m := by
  induction rest generalizing z s n with
  | nil =>
    simp only [channelLoop, Option.some.injEq] at h
    exact ⟨n, h ▸ hs⟩
  | cons c cs ih =>
    by_cases hc : c = '|'
    · simp only [channelLoop, hc, if_true] at h
      cases ha : appendChannel s (t.take z) (split ',' (t.drop z)) with
      | none => simp [ha] at h
      | some s2 =>
        rw [ha] at h
        exact ih (z + 1) s2 (n + 1) h (appendChannel_aligned s s2 _ _ n ha hs)
    · simp only [channelLoop, hc, if_false] at h
      exact ih (z + 1) s n h hs

theorem foldlM_aligned (ts : List (List Char)) (s s1 : Para) (n : Nat)
    (h : ts.foldlM (fun s t => channelLoop t t 0 s) s = some s1) (hs : s.aligned n) :
    ∃ m, s1.aligned m := by
  induction ts generalizing s n with
  | nil =>
    simp only [List.foldlM_nil, pure, Option.some.injEq] at h
    exact ⟨n, h ▸ hs⟩
  | cons t ts ih =>
    simp only [List.foldlM_cons] at h
    cases hc : channelLoop t t 0 s with
    | none => simp [hc] at h
    | some s2 =>
      rw [hc] at h
      obtain ⟨m, hm⟩ := channelLoop_aligned t t 0 s s2 n hc hs
      exact ih s2 m h hm

theorem clearLists_aligned (s : Para) : (clearLists s).aligned 0 := by
  simp [Para.aligned, clearLists]

theorem drop_eq_cons (t cs : List Char) (c : Char) (z : Nat) (h : t.drop z = c :: cs) :
    t[z]? = some c ∧ t.drop (z + 1) = cs := by
  constructor
  · have := List.getElem?_drop t z 0
    rw [h] at this
    simpa using this.symm
  · have : t.drop (z + 1) = (t.drop z).drop 1 := by rw [List.drop_drop]
    rw [this, h]
    rfl

theorem channelLoop_isSome (t rest : List Char) (z : Nat) (s : Para)
    (hrest : t.drop z = rest)
    (h : ∀ z, t[z]? = some '|' → 15 ≤ (split ',' (t.drop z)).length) :
    (channelLoop t rest z s).isSome = true := by
  induction rest generalizing z s with
  | nil => rfl
  | cons c cs ih =>
    obtain ⟨hz, hcs⟩ := drop_eq_cons t cs c z hrest
    by_cases hc : c = '|'
    · subst hc
      obtain ⟨s1, hs1, _⟩ := appendChannel_eq s (t.take z) _ (h z hz)
      simp only [channelLoop, if_true, hs1, Option.some_bind]
      exact ih (z + 1) _ hcs
    · simp only [channelLoop, hc, if_false]
      exact ih (z + 1) s hcs

theorem foldlM_isSome (ts : List (List Char)) (s : Para)
    (h : ∀ t ∈ ts, ∀ z, t[z]? = some '|' → 15 ≤ (split ',' (t.drop z)).length) :
    (ts.foldlM (fun s t => channelLoop t t 0 s) s).isSome = true := by
  induction ts generalizing s with
  | nil => rfl
  | cons t ts ih =>
    simp only [List.foldlM_cons]
    have ht := channelLoop_isSome t t 0 s rfl (h t (by simp))
    obtain ⟨s1, hs1⟩ := Option.isSome_iff_exists.mp ht
    rw [hs1]
    exact ih s1 (fun u hu => h u (by simp [hu]))

/-- C25: when every `|` of the command is followed by at least 15
comma-separated pieces within its record, `MGH_LM_Get_Channel_Info` returns,
all sixteen per-channel lists then have the same length, and what they hold
does not depend on the object the call started from. -/
theorem MGH_LM_Get_Channel_Info_lists (s u : Para) (cmdstr : List Char)
    (h : FifteenFields cmdstr) :
    ∃ s1 u1 n, MGH_LM_Get_Channel_Info s cmdstr = some s1 ∧
      MGH_LM_Get_Channel_Info u cmdstr = some u1 ∧
      s1.aligned n ∧ u1.aligned n ∧ s1.sameLists u1 := by
  have hsome := foldlM_isSome (MGH_LM_Exact_Single_Channel_Info (channelText cmdstr))
    (clearLists Para.fresh) (fun t ht z hz => h t ht z (by
      by_contra hlt
      rw [List.getElem?_eq_none (by omega)] at hz
      cases hz) hz)
  obtain ⟨r, hr⟩ := Option.isSome_iff_exists.mp hsome
  have hr1 : MGH_LM_Get_Channel_Info Para.fresh cmdstr = some r := hr
  obtain ⟨n, hn⟩ := foldlM_aligned _ _ r 0 hr (clearLists_aligned Para.fresh)
  refine ⟨r.withHeaderOf s, r.withHeaderOf u, n, ?_, ?_, hn, hn, ?_⟩
  · rw [MGH_LM_Get_Channel_Info_withHeaderOf, hr1]; rfl
  · rw [MGH_LM_Get_Channel_Info_withHeaderOf, hr1]; rfl
  · exact ⟨rfl, rfl, rfl, rfl, rfl, rfl, rfl, rfl, rfl, rfl, rfl, rfl, rfl, rfl, rfl, rfl⟩

end BabyMEGInfo

namespace BabyMEGInfo

theorem joinValues_not_mem (c : Char) (hc : c ≠ ',') (vs : List (List Char))
    (h : ∀ v ∈ vs, c ∉ v) : c ∉ joinValues vs := by
  induction vs with
  | nil => simp [joinValues]
  | cons v vs ih =>
    cases vs with
    | nil => simpa [joinValues] using h v (by simp)
    | cons w ws =>
      have hv : c ∉ v := h v (by simp)
      have hrest := ih (fun x hx => h x (by simp [hx]))
      simp only [joinValues, List.mem_append, List.mem_cons, not_or]
      exact ⟨hv, hc, hrest⟩

theorem splitFrom_skip (sep : Char) (cur v rest : List Char) (hv : sep ∉ v) :
    splitFrom sep cur (v ++ rest) = splitFrom sep (cur ++ v) rest := by
  induction v generalizing cur with
  | nil => simp
  | cons c cs ih =>
    have hc : c ≠ sep := fun h => hv (by simp [h])
    have hcs : sep ∉ cs := fun h => hv (by simp [h])
    simp only [List.cons_append, splitFrom, hc, if_false, List.append_eq]
    rw [ih (cur ++ [c]) hcs]
    simp

theorem splitFrom_joinValues (cur v : List Char) (vs : List (List Char))
    (h : ∀ x ∈ v :: vs, ',' ∉ x) :
    splitFrom ',' cur (joinValues (v :: vs)) = (cur ++ v) :: vs := by
  induction vs generalizing cur v with
  | nil =>
    have hv : ',' ∉ v := h v (by simp)
    have := splitFrom_skip ',' cur v [] hv
    simp only [List.append_nil] at this
    simp [joinValues, this, splitFrom]
  | cons w ws ih =>
    have hv : ',' ∉ v := h v (by simp)
    have hrest : ∀ x ∈ w :: ws, ',' ∉ x := fun x hx => h x (by simp [List.mem_cons] at hx ⊢; tauto)
    simp only [joinValues]
    rw [splitFrom_skip ',' cur v _ hv]
    simp only [splitFrom, if_true]
    rw [ih [] w hrest]
    simp

theorem channelLoop_skip (t pre rest : List Char) (z : Nat) (s : Para) (hpre : '|' ∉ pre) :
    channelLoop t (pre ++ rest) z s = channelLoop t rest (z + pre.length) s := by
  induction pre generalizing z with
  | nil => simp
  | cons c cs ih =>
    have hc : c ≠ '|' := fun h => hpre (by simp [h])
    have hcs : '|' ∉ cs := fun h => hpre (by simp [h])
    simp only [List.cons_append, channelLoop, hc, if_false, List.append_eq]
    rw [ih (z + 1) hcs, List.length_cons]
    congr 1
    omega

theorem ChannelRecord.text_facts (r : ChannelRecord) (h : r.WellFormed) :
    ';' ∉ r.text ∧ '|' ∉ joinValues r.values ∧
    ∃ v vs, r.values = v :: vs ∧ vs.length = 14 ∧
      split ',' ('|' :: joinValues r.values) = ('|' :: v) :: vs := by
  obtain ⟨hn1, hn2, hlen, hv⟩ := h
  have hsemi : ';' ∉ joinValues r.values :=
    joinValues_not_mem ';' (by decide) _ (fun v hv1 => (hv v hv1).2.2)
  have hbar : '|' ∉ joinValues r.values :=
    joinValues_not_mem '|' (by decide) _ (fun v hv1 => (hv v hv1).2.1)
  refine ⟨?_, hbar, ?_⟩
  · simp only [ChannelRecord.text, List.mem_append, List.mem_cons, not_or]
    exact ⟨hn2, by decide, hsemi⟩
  · cases hvals : r.values with
    | nil => rw [hvals] at hlen; cases hlen
    | cons v vs =>
      rw [hvals] at hlen hv
      refine ⟨v, vs, rfl, by simpa using hlen, ?_⟩
      have := splitFrom_joinValues ['|'] v vs (fun x hx => (hv x hx).1)
      simpa [split, splitFrom] using this

theorem channelLoop_record (r : ChannelRecord) (h : r.WellFormed) (s : Para) :
    ∃ s1, channelLoop r.text r.text 0 s = some s1 ∧
      s1.lm_ch_names = s.lm_ch_names ++ [r.name] ∧
      s1.lm_ch_scales = s.lm_ch_scales ++ ['|' :: r.values.headD []] ∧
      ∀ n, s.aligned n → s1.aligned (n + 1) := by
  obtain ⟨_, hbar, v, vs, hvals, hvs, hsplit⟩ := r.text_facts h
  have h1 := channelLoop_skip r.text r.name ('|' :: joinValues r.values) 0 s h.1
  have ht : r.text = r.name ++ '|' :: joinValues r.values := rfl
  have htake : r.text.take (0 + r.name.length) = r.name := by
    rw [ht, Nat.zero_add, List.take_left]
  have hdrop : r.text.drop (0 + r.name.length) = '|' :: joinValues r.values := by
    rw [ht, Nat.zero_add, List.drop_left]
  have h15 : 15 ≤ (split ',' ('|' :: joinValues r.values)).length := by
    rw [hsplit]; simp [hvs]
  obtain ⟨s1, hs1, hnames, hscales, _, _, hal⟩ :=
    appendChannel_eq s r.name (split ',' ('|' :: joinValues r.values)) h15
  have h2 := channelLoop_skip r.text (joinValues r.values) [] (0 + r.name.length + 1) s1 hbar
  simp only [List.append_nil] at h2
  refine ⟨s1, ?_, hnames, ?_, hal⟩
  · have h3 : channelLoop r.text r.text 0 s =
        channelLoop r.text ('|' :: joinValues r.values) (0 + r.name.length) s := h1
    rw [h3]
    simp only [channelLoop, if_true, htake, hdrop, hs1, Option.some_bind, h2]
  · rw [hscales, hsplit, hvals]
    rfl

theorem foldlM_records (records : List ChannelRecord) (h : ∀ r ∈ records, r.WellFormed)
    (s : Para) :
    ∃ s1, (records.map ChannelRecord.text).foldlM (fun s t => channelLoop t t 0 s) s = some s1 ∧
      s1.lm_ch_names = s.lm_ch_names ++ records.map ChannelRecord.name ∧
      ∀ n, s.aligned n → s1.aligned (n + records.length) := by
  induction records generalizing s with
  | nil => exact ⟨s, rfl, by simp, fun n hn => hn⟩
  | cons r rs ih =>
    obtain ⟨s1, hs1, hn1, _, hal1⟩ := channelLoop_record r (h r (by simp)) s
    obtain ⟨s2, hs2, hn2, hal2⟩ := ih (fun x hx => h x (by simp [hx])) s1
    refine ⟨s2, ?_, ?_, ?_⟩
    · simp only [List.map_cons, List.foldlM_cons, hs1, Option.some_bind]
      exact hs2
    · rw [hn2, hn1]; simp
    · intro n hn
      have := hal2 (n + 1) (hal1 n hn)
      simpa [Nat.add_assoc, Nat.add_comm 1] using this

theorem MGH_LM_Get_Channel_Info_records (records : List ChannelRecord)
    (h : ∀ r ∈ records, r.WellFormed) (s : Para) :
    ∃ s1, MGH_LM_Get_Channel_Info s (':' :: recordsText (records.map ChannelRecord.text)) =
        some s1 ∧
      s1.lm_ch_names = records.map ChannelRecord.name ∧
      s1.aligned records.length ∧
      s1.chnNum = s.chnNum ∧ s1.dataLength = s.dataLength ∧ s1.sfreq = s.sfreq ∧
      s1.m_FiffInfo = s.m_FiffInfo ∧ s1.emitted = s.emitted := by
  have hrec : MGH_LM_Exact_Single_Channel_Info
      (channelText (':' :: recordsText (records.map ChannelRecord.text))) =
      records.map ChannelRecord.text := by
    rw [MGH_LM_Exact_Single_Channel_Info_eq]
    simp only [channelText]
    apply recordsFrom_recordsText
    intro t ht
    obtain ⟨r, hr, rfl⟩ := List.mem_map.mp ht
    exact (r.text_facts (h r hr)).1
  obtain ⟨s1, hs1, hn, hal⟩ := foldlM_records records h (clearLists s)
  refine ⟨s1, ?_, ?_, ?_, ?_⟩
  · simp only [MGH_LM_Get_Channel_Info, hrec, hs1]
  · simpa [clearLists] using hn
  · simpa using hal 0 (clearLists_aligned s)
  · have hw := MGH_LM_Get_Channel_Info_withHeaderOf s
      (':' :: recordsText (records.map ChannelRecord.text))
    have hs1g : MGH_LM_Get_Channel_Info s
        (':' :: recordsText (records.map ChannelRecord.text)) = some s1 := by
      simp only [MGH_LM_Get_Channel_Info, hrec, hs1]
    rw [hs1g] at hw
    cases hf : MGH_LM_Get_Channel_Info Para.fresh
        (':' :: recordsText (records.map ChannelRecord.text)) with
    | none => rw [hf] at hw; cases hw
    | some r =>
      rw [hf] at hw
      have hs1r : s1 = r.withHeaderOf s := Option.some.inj hw
      rw [hs1r]
      exact ⟨rfl, rfl, rfl, rfl, rfl⟩

end BabyMEGInfo

namespace BabyMEGInfo

open FIFFLIB in
theorem setKind_keeps (k : Constants) (type : Int) (t_ch : FiffChInfo) :
    (setKind k type t_ch).ch_name = t_ch.ch_name ∧
    (setKind k type t_ch).scanno = t_ch.scanno ∧
    (setKind k type t_ch).logno = t_ch.logno ∧
    (setKind k type t_ch).unit_mul = k.FIFF_UNITM_NONE := by
  simp only [setKind]
  split <;> exact ⟨rfl, rfl, rfl, rfl⟩

theorem addChannels_addChannels (s : Para) (as bs : List FIFFLIB.FiffChInfo) :
    (s.addChannels as).addChannels bs = s.addChannels (as ++ bs) := by
  simp [Para.addChannels]

theorem channelsLoop_some (conv : Conversions) (k : Constants) (s : Para) (is : List Nat)
    (h : ∀ i ∈ is, s.covers i) :
    channelsLoop conv k s is = some (s.addChannels (is.map (descriptorOf conv k s))) := by
  suffices hgen : ∀ (ds : List FIFFLIB.FiffChInfo),
      channelsLoop conv k (s.addChannels ds) is =
        some (s.addChannels (ds ++ is.map (descriptorOf conv k s))) by
    have := hgen []
    simpa [Para.addChannels] using this
  induction is with
  | nil => intro ds; simp [channelsLoop]
  | cons i is ih =>
    intro ds
    have hi : (s.addChannels ds).covers i := h i (by simp)
    have hd : channelDescriptor conv k (s.addChannels ds) i = some (descriptorOf conv k s i) := by
      rw [channelDescriptor, if_pos hi]; rfl
    have := ih (fun j hj => h j (by simp [hj])) (ds ++ [descriptorOf conv k s i])
    simp only [channelsLoop] at this ⊢
    simp only [List.foldlM_cons, hd, Option.map_some', addChannels_addChannels]
    simp [this]

theorem channelsLoop_none (conv : Conversions) (k : Constants) (s : Para) (is : List Nat)
    (i0 : Nat) (hi0 : i0 ∈ is) (h : ¬ s.covers i0) : channelsLoop conv k s is = none := by
  suffices hgen : ∀ (ds : List FIFFLIB.FiffChInfo),
      channelsLoop conv k (s.addChannels ds) is = none by
    have := hgen []
    simpa [Para.addChannels] using this
  induction is with
  | nil => cases hi0
  | cons i is ih =>
    intro ds
    simp only [channelsLoop, List.foldlM_cons]
    by_cases hi : s.covers i
    · have hd : channelDescriptor conv k (s.addChannels ds) i =
          some (descriptorOf conv k s i) := by
        have hi1 : (s.addChannels ds).covers i := hi
        rw [channelDescriptor, if_pos hi1]; rfl
      have hmem : i0 ∈ is := by
        rcases List.mem_cons.mp hi0 with h1 | h1
        · exact absurd (h1 ▸ hi) h
        · exact h1
      have := ih hmem (ds ++ [descriptorOf conv k s i])
      simp only [channelsLoop] at this
      simp only [hd, Option.map_some', addChannels_addChannels]
      simp [this]
    · have hd : channelDescriptor conv k (s.addChannels ds) i = none := by
        have hi1 : ¬ (s.addChannels ds).covers i := hi
        rw [channelDescriptor, if_neg hi1]
      simp only [hd, Option.map_none']
      simp

theorem MGH_LM_Parse_Para_some (conv : Conversions) (k : Constants) (s s1 : Para)
    (cmdstr : List Char) (h1 : parseCommand conv s cmdstr = some s1)
    (hc : ∀ i, i < s1.chnNum.toNat → s1.covers i) :
    MGH_LM_Parse_Para conv k s cmdstr = some (s1.finish conv k) := by
  have hl := channelsLoop_some conv k (setParameters conv s1) (List.range s1.chnNum.toNat)
    (fun i hi => hc i (List.mem_range.mp hi))
  simp only [MGH_LM_Parse_Para, h1, Option.some_bind, hl, Option.map_some']
  rfl

theorem MGH_LM_Parse_Para_inv (conv : Conversions) (k : Constants) (s s2 : Para)
    (cmdstr : List Char) (h : MGH_LM_Parse_Para conv k s cmdstr = some s2) :
    ∃ s1, parseCommand conv s cmdstr = some s1 ∧
      (∀ i, i < s1.chnNum.toNat → s1.covers i) ∧ s2 = s1.finish conv k := by
  cases h1 : parseCommand conv s cmdstr with
  | none => simp [MGH_LM_Parse_Para, h1] at h
  | some s1 =>
    have hc : ∀ i, i < s1.chnNum.toNat → s1.covers i := by
      intro i hi
      by_contra hn
      have := channelsLoop_none conv k (setParameters conv s1) (List.range s1.chnNum.toNat) i
        (List.mem_range.mpr hi) hn
      simp [MGH_LM_Parse_Para, h1, this] at h
    refine ⟨s1, rfl, hc, ?_⟩
    rw [MGH_LM_Parse_Para_some conv k s s1 cmdstr h1 hc] at h
    exact (Option.some.inj h).symm

theorem parseCommand_header (conv : Conversions) (s s1 : Para) (cmdstr : List Char)
    (h : parseCommand conv s cmdstr = some s1) :
    s1.chnNum = (parseHeader conv s cmdstr).1.chnNum ∧
    s1.dataLength = (parseHeader conv s cmdstr).1.dataLength ∧
    s1.sfreq = (parseHeader conv s cmdstr).1.sfreq ∧
    s1.m_FiffInfo = s.m_FiffInfo ∧ s1.emitted = s.emitted := by
  have hh : (parseHeader conv s cmdstr).1.m_FiffInfo = s.m_FiffInfo ∧
      (parseHeader conv s cmdstr).1.emitted = s.emitted := by
    simp only [parseHeader]
    split <;> exact ⟨rfl, rfl⟩
  simp only [parseCommand] at h
  split at h
  · rename_i s0 rest hp
    rw [MGH_LM_Get_Channel_Info_withHeaderOf] at h
    cases hf : MGH_LM_Get_Channel_Info Para.fresh rest with
    | none => rw [hf] at h; cases h
    | some r =>
      rw [hf] at h
      have : s1 = r.withHeaderOf s0 := (Option.some.inj h).symm
      rw [hp] at hh
      rw [this, hp]
      exact ⟨rfl, rfl, rfl, hh.1, hh.2⟩
  · rename_i s0 hp
    have : s1 = s0 := (Option.some.inj h).symm
    rw [hp] at hh
    rw [this, hp]
    exact ⟨rfl, rfl, rfl, hh.1, hh.2⟩

end BabyMEGInfo

namespace BabyMEGInfo

theorem aligned_covers (s : Para) (n i : Nat) (h : s.aligned n) (hi : i < n) : s.covers i := by
  obtain ⟨h1, h2, h3, h4, h5, h6, h7, h8, h9, h10, h11, h12, h13, h14, h15, h16⟩ := h
  exact ⟨h1.symm ▸ hi, h2.symm ▸ hi, h3.symm ▸ hi, h4.symm ▸ hi, h5.symm ▸ hi, h6.symm ▸ hi,
    h7.symm ▸ hi, h8.symm ▸ hi, h9.symm ▸ hi, h10.symm ▸ hi, h11.symm ▸ hi, h12.symm ▸ hi,
    h13.symm ▸ hi, h14.symm ▸ hi, h15.symm ▸ hi, h16.symm ▸ hi⟩

theorem range_map_getD {β γ : Type} (l : List β) (d : β) (f : β → γ) (n : Nat)
    (hn : n ≤ l.length) :
    (List.range n).map (fun i => f (l.getD i d)) = (l.take n).map f := by
  apply List.ext_getElem
  · simp [hn]
  · intro i h1 h2
    have hi : i < n := by simpa using h1
    have hil : i < l.length := by omega
    simp [List.getD_eq_getElem?_getD, List.getElem?_eq_getElem hil]

theorem finish_catalog (conv : Conversions) (k : Constants) (s1 : Para) :
    (s1.finish conv k).m_FiffInfo.chs =
      s1.m_FiffInfo.chs ++ (List.range s1.chnNum.toNat).map (descriptorOf conv k s1) ∧
    (s1.finish conv k).m_FiffInfo.ch_names =
      s1.m_FiffInfo.ch_names ++
        (List.range s1.chnNum.toNat).map (fun i => String.mk (s1.lm_ch_names.getD i [])) ∧
    (s1.finish conv k).m_FiffInfo.nchan = s1.chnNum ∧
    (s1.finish conv k).m_FiffInfo.sfreq = conv.toFloat32 s1.sfreq ∧
    (s1.finish conv k).m_FiffInfo.highpass = 0 ∧
    (s1.finish conv k).m_FiffInfo.lowpass = conv.toFloat32 s1.sfreq / 2 ∧
    (s1.finish conv k).chnNum = s1.chnNum ∧
    (s1.finish conv k).dataLength = s1.dataLength ∧
    (s1.finish conv k).sfreq = s1.sfreq ∧
    (s1.finish conv k).lm_ch_names = s1.lm_ch_names := by
  refine ⟨rfl, ?_, rfl, rfl, rfl, rfl, rfl, rfl, rfl, rfl⟩
  show s1.m_FiffInfo.ch_names ++
      ((List.range s1.chnNum.toNat).map (descriptorOf conv k s1)).map (fun t_ch => t_ch.ch_name) = _
  rw [List.map_map]
  congr 1
  apply List.map_congr_left
  intro i _
  exact (setKind_keeps k _ _).1

theorem parseCommand_infoCommand (conv : Conversions) (s : Para) (tn tl tf : List Char)
    (records : List ChannelRecord) (hn : ':' ∉ tn) (hl : ':' ∉ tl) (hf : ':' ∉ tf)
    (hw : ∀ r ∈ records, r.WellFormed) :
    ∃ s1, parseCommand conv s (infoCommand tn tl tf records) = some s1 ∧
      s1.lm_ch_names = records.map ChannelRecord.name ∧ s1.aligned records.length ∧
      s1.chnNum = conv.toInt tn ∧ s1.dataLength = conv.toInt tl ∧
      s1.sfreq = conv.toDouble tf ∧ s1.m_FiffInfo = s.m_FiffInfo ∧ s1.emitted = s.emitted := by
  have hh := parseHeader_info conv s tn tl tf
    (recordsText (records.map ChannelRecord.text)) hn hl hf
  obtain ⟨s1, hs1, hnames, hal, h1, h2, h3, h4, h5⟩ :=
    MGH_LM_Get_Channel_Info_records records hw
      { s with chnNum := conv.toInt tn, dataLength := conv.toInt tl, sfreq := conv.toDouble tf }
  refine ⟨s1, ?_, hnames, hal, h1, h2, h3, h4, h5⟩
  simp only [parseCommand, infoCommand, hh, hs1]

theorem parse_infoCommand (conv : Conversions) (k : Constants) (tn tl tf : List Char)
    (records : List ChannelRecord) (hn : ':' ∉ tn) (hl : ':' ∉ tl) (hf : ':' ∉ tf)
    (hw : ∀ r ∈ records, r.WellFormed) (hcount : conv.toInt tn = records.length) :
    ∃ s2, MGH_LM_Parse_Para conv k Para.fresh (infoCommand tn tl tf records) = some s2 ∧
      s2.m_FiffInfo.chs =
        (List.range records.length).map (fun i => setKind k
          (conv.toInt (s2.lm_ch_coiltype.getD i []))
          { ch_name := String.mk (s2.lm_ch_names.getD i [])
            scanno := i
            logno := i + 1
            cal := conv.toDouble (s2.lm_ch_calicoef.getD i [])
            unit_mul := conv.toFloatInt (s2.lm_ch_scales.getD i [])
            range := 1
            loc := (s2.positions i).map conv.toDouble }) ∧
      s2.m_FiffInfo.ch_names = records.map (fun r => String.mk r.name) ∧
      s2.lm_ch_names = records.map ChannelRecord.name := by
  obtain ⟨s1, hs1, hnames, hal, hchn, _, _, hfi, _⟩ :=
    parseCommand_infoCommand conv Para.fresh tn tl tf records hn hl hf hw
  have hnat : s1.chnNum.toNat = records.length := by rw [hchn, hcount]; simp
  have hc : ∀ i, i < s1.chnNum.toNat → s1.covers i :=
    fun i hi => aligned_covers s1 records.length i hal (hnat ▸ hi)
  obtain ⟨hchs, hcn, _⟩ := finish_catalog conv k s1
  refine ⟨s1.finish conv k, MGH_LM_Parse_Para_some conv k _ s1 _ hs1 hc, ?_, ?_, hnames⟩
  · rw [hchs, hfi, hnat]
    rfl
  · rw [hcn, hfi, hnat]
    have := range_map_getD s1.lm_ch_names [] String.mk records.length
      (by rw [hnames]; simp)
    simp only [Para.fresh, List.nil_append]
    rw [this, hnames, List.take_of_length_le (by simp), List.map_map]
    rfl

end BabyMEGInfo

namespace BabyMEGInfo

/-- C18: after `MGH_LM_Parse_Para` on a freshly constructed object with a
well-formed `INFO` command whose channel count is the number of its records,
the catalog follows the record order: `ch_names[i]` and `chs[i].ch_name` are
the name of the `i`-th record, and `chs[i]` has `scanno = i` and
`logno = i + 1`. -/
theorem MGH_LM_Parse_Para_catalog_order (conv : Conversions) (k : Constants)
    (tn tl tf : List Char) (records : List ChannelRecord)
    (hn : ':' ∉ tn) (hl : ':' ∉ tl) (hf : ':' ∉ tf)
    (hw : ∀ r ∈ records, r.WellFormed) (hcount : conv.toInt tn = records.length) :
    ∃ s2, MGH_LM_Parse_Para conv k Para.fresh (infoCommand tn tl tf records) = some s2 ∧
      s2.m_FiffInfo.ch_names = records.map (fun r => String.mk r.name) ∧
      s2.m_FiffInfo.chs.map (fun c => c.ch_name) = records.map (fun r => String.mk r.name) ∧
      s2.m_FiffInfo.chs.map (fun c => c.scanno) =
        (List.range records.length).map (fun i : Nat => (i : Int)) ∧
      s2.m_FiffInfo.chs.map (fun c => c.logno) =
        (List.range records.length).map (fun i : Nat => (i : Int) + 1) := by
  obtain ⟨s2, hs2, hchs, hcn, hnames⟩ :=
    parse_infoCommand conv k tn tl tf records hn hl hf hw hcount
  refine ⟨s2, hs2, hcn, ?_, ?_, ?_⟩
  · rw [hchs, List.map_map]
    have h1 : ∀ i ∈ List.range records.length,
        ((fun c : FIFFLIB.FiffChInfo => c.ch_name) ∘ fun i => setKind k
          (conv.toInt (s2.lm_ch_coiltype.getD i []))
          { ch_name := String.mk (s2.lm_ch_names.getD i [])
            scanno := i
            logno := i + 1
            cal := conv.toDouble (s2.lm_ch_calicoef.getD i [])
            unit_mul := conv.toFloatInt (s2.lm_ch_scales.getD i [])
            range := 1
            loc := (s2.positions i).map conv.toDouble }) i =
        String.mk (s2.lm_ch_names.getD i []) :=
      fun i _ => (setKind_keeps k _ _).1
    rw [List.map_congr_left h1]
    have := range_map_getD s2.lm_ch_names [] String.mk records.length
      (by rw [hnames]; simp)
    rw [this, hnames, List.take_of_length_le (by simp), List.map_map]
    rfl
  · rw [hchs, List.map_map]
    apply List.map_congr_left
    intro i _
    exact (setKind_keeps k _ _).2.1
  · rw [hchs, List.map_map]
    apply List.map_congr_left
    intro i _
    exact (setKind_keeps k _ _).2.2.1

theorem MGH_LM_Parse_Para_catalog_order_witness :
    ((':' ∉ "2".toList ∧ ':' ∉ "5000".toList ∧ ':' ∉ "10000".toList) ∧
      (∀ r ∈ exampleRecords, r.WellFormed) ∧
      exampleConv.toInt "2".toList = exampleRecords.length) ∧
    infoCommand "2".toList "5000".toList "10000".toList exampleRecords = exampleCommand ∧
    ∃ s2, MGH_LM_Parse_Para exampleConv fiffConstants Para.fresh
        (infoCommand "2".toList "5000".toList "10000".toList exampleRecords) = some s2 ∧
      s2.m_FiffInfo.ch_names = exampleRecords.map (fun r => String.mk r.name) ∧
      s2.m_FiffInfo.chs.map (fun c => c.ch_name) =
        exampleRecords.map (fun r => String.mk r.name) ∧
      s2.m_FiffInfo.chs.map (fun c => c.scanno) =
        (List.range exampleRecords.length).map (fun i : Nat => (i : Int)) ∧
      s2.m_FiffInfo.chs.map (fun c => c.logno) =
        (List.range exampleRecords.length).map (fun i : Nat => (i : Int) + 1) :=
  ⟨⟨by decide, by simp [exampleRecords, ChannelRecord.WellFormed], by decide⟩, by decide,
    MGH_LM_Parse_Para_catalog_order exampleConv fiffConstants "2".toList "5000".toList
      "10000".toList exampleRecords (by decide) (by decide) (by decide)
      (by simp [exampleRecords, ChannelRecord.WellFormed]) (by decide)⟩

end BabyMEGInfo

namespace BabyMEGInfo

/-- C20: for a command `INFO:` n `:` len `:` fs `:` rest whose three header
fields contain no `:`, `MGH_LM_Parse_Para` sets `chnNum`, `dataLength` and
`sfreq` to what `toInt` and `toDouble` make of n, len and fs, hands `:` rest to
`MGH_LM_Get_Channel_Info`, which splits exactly rest into records, and stores
`nchan`, `sfreq`, `highpass = 0` and `lowpass = sfreq / 2` in `m_FiffInfo`. -/
theorem MGH_LM_Parse_Para_header (conv : Conversions) (k : Constants) (s : Para)
    (tn tl tf rest : List Char) (hn : ':' ∉ tn) (hl : ':' ∉ tl) (hf : ':' ∉ tf) :
    parseHeader conv s
        ('I' :: 'N' :: 'F' :: 'O' :: ':' :: (tn ++ ':' :: (tl ++ ':' :: (tf ++ ':' :: rest)))) =
      ({ s with chnNum := conv.toInt tn, dataLength := conv.toInt tl,
                sfreq := conv.toDouble tf }, some (':' :: rest)) ∧
    channelText (':' :: rest) = rest ∧
    ∀ s2, MGH_LM_Parse_Para conv k s
        ('I' :: 'N' :: 'F' :: 'O' :: ':' :: (tn ++ ':' :: (tl ++ ':' :: (tf ++ ':' :: rest)))) =
          some s2 →
      s2.chnNum = conv.toInt tn ∧ s2.dataLength = conv.toInt tl ∧
      s2.sfreq = conv.toDouble tf ∧
      s2.m_FiffInfo.nchan = conv.toInt tn ∧
      s2.m_FiffInfo.sfreq = conv.toFloat32 (conv.toDouble tf) ∧
      s2.m_FiffInfo.highpass = 0 ∧
      s2.m_FiffInfo.lowpass = conv.toFloat32 (conv.toDouble tf) / 2 := by
  have hh := parseHeader_info conv s tn tl tf rest hn hl hf
  refine ⟨hh, rfl, ?_⟩
  intro s2 h
  obtain ⟨s1, hs1, _, rfl⟩ := MGH_LM_Parse_Para_inv conv k s s2 _ h
  obtain ⟨h1, h2, h3, _, _⟩ := parseCommand_header conv s s1 _ hs1
  rw [hh] at h1 h2 h3
  obtain ⟨_, _, g1, g2, g3, g4, g5, g6, g7, _⟩ := finish_catalog conv k s1
  rw [g1, g2, g3, g4, g5, g6, g7, h1, h2, h3]
  exact ⟨rfl, rfl, rfl, rfl, rfl, rfl, rfl⟩

theorem MGH_LM_Parse_Para_header_witness :
    (':' ∉ "2".toList ∧ ':' ∉ "5000".toList ∧ ':' ∉ "10000".toList) ∧
    ∃ s2, MGH_LM_Parse_Para exampleConv fiffConstants Para.fresh exampleCommand = some s2 ∧
      s2.chnNum = 2 ∧ s2.dataLength = 5000 ∧ s2.sfreq = 10000 ∧
      s2.m_FiffInfo.nchan = 2 ∧ s2.m_FiffInfo.sfreq = 10000 ∧
      s2.m_FiffInfo.highpass = 0 ∧ s2.m_FiffInfo.lowpass = 10000 / 2 := by
  obtain ⟨s2, hs2⟩ := Option.isSome_iff_exists.mp
    (by decide :
      (MGH_LM_Parse_Para exampleConv fiffConstants Para.fresh exampleCommand).isSome = true)
  exact ⟨by decide, s2, hs2,
    (MGH_LM_Parse_Para_header exampleConv fiffConstants Para.fresh "2".toList "5000".toList
      "10000".toList (recordsText (exampleRecords.map ChannelRecord.text))
      (by decide) (by decide) (by decide)).2.2 s2 hs2⟩

/-- C21: the scale is stored with the `|` in front.  For the record
`MEG001|3,1,...,12,7002,5;` the name, the twelve positions, the coil type and
the calibration coefficient are stored as sent, but `tt = t.mid(z)` starts at
the `|`, so `schp.at(0)`, the scale, is `|3` and not `3`. -/
theorem MGH_LM_Get_Channel_Info_scale_keeps_bar :
    (MGH_LM_Get_Channel_Info Para.fresh
        "MEG001|3,1,2,3,4,5,6,7,8,9,10,11,12,7002,5;".toList).map
      (fun s => (s.lm_ch_names, s.lm_ch_scales)) =
        some (["MEG001".toList], ["|3".toList]) ∧
    (MGH_LM_Get_Channel_Info Para.fresh
        "MEG001|3,1,2,3,4,5,6,7,8,9,10,11,12,7002,5;".toList).map
      (fun s => (s.lm_ch_pos1, s.lm_ch_pos12)) = some (["1".toList], ["12".toList]) ∧
    (MGH_LM_Get_Channel_Info Para.fresh
        "MEG001|3,1,2,3,4,5,6,7,8,9,10,11,12,7002,5;".toList).map
      (fun s => (s.lm_ch_coiltype, s.lm_ch_calicoef)) =
        some (["7002".toList], ["5".toList]) := by
  decide

/-- C26: `MGH_LM_Parse_Para` is not total on a freshly constructed object.  For
a command that does not start with `INFO` it sets `chnNum = 464` while the
per-channel lists are empty, so the first `lm_ch_names.at(0)` is outside the
list; the same happens for an `INFO` command that announces more channels
than it has records. -/
theorem MGH_LM_Parse_Para_reads_outside_lists :
    (parseCommand exampleConv Para.fresh "HELLO".toList).map
        (fun s => (s.chnNum, s.dataLength, s.sfreq, s.lm_ch_names)) =
      some (464, 5000, 10000, []) ∧
    MGH_LM_Parse_Para exampleConv fiffConstants Para.fresh "HELLO".toList = none ∧
    (parseCommand exampleConv Para.fresh shortCommand).map
        (fun s => (s.chnNum, s.lm_ch_names.length)) = some (3, 2) ∧
    MGH_LM_Parse_Para exampleConv fiffConstants Para.fresh shortCommand = none := by
  decide

/-- C27: a repeated call leaves the catalog inconsistent.  After two calls of
`MGH_LM_Parse_Para` with the same one-record command on the same object,
`m_FiffInfo.nchan` is 1 while `m_FiffInfo.chs` and `m_FiffInfo.ch_names` hold
two entries each: the per-channel lists are cleared on every call,
`m_FiffInfo.chs` and `m_FiffInfo.ch_names` are not. -/
theorem MGH_LM_Parse_Para_twice :
    ((MGH_LM_Parse_Para exampleConv fiffConstants Para.fresh oneRecordCommand).bind
        fun s => MGH_LM_Parse_Para exampleConv fiffConstants s oneRecordCommand).map
      (fun s => (s.m_FiffInfo.nchan, s.m_FiffInfo.chs.length, s.m_FiffInfo.ch_names,
        s.lm_ch_names.length)) =
    some (1, 2, ["MEG001", "MEG001"], 1) := by
  decide

end BabyMEGInfo

namespace BabyMEGInfo

theorem MGH_LM_Get_Channel_Info_lists_witness :
    FifteenFields ":MEG001|3,1,2,3,4,5,6,7,8,9,10,11,12,7002,5;EEG|4,1,2,3,4,5,6,7,8,9,10,11,12,1,6,7;x".toList ∧
    ∃ s1 u1 n,
      MGH_LM_Get_Channel_Info Para.fresh
        ":MEG001|3,1,2,3,4,5,6,7,8,9,10,11,12,7002,5;EEG|4,1,2,3,4,5,6,7,8,9,10,11,12,1,6,7;x".toList =
          some s1 ∧
      MGH_LM_Get_Channel_Info { Para.fresh with lm_ch_names := ["old".toList], chnNum := 9 }
        ":MEG001|3,1,2,3,4,5,6,7,8,9,10,11,12,7002,5;EEG|4,1,2,3,4,5,6,7,8,9,10,11,12,1,6,7;x".toList =
          some u1 ∧
      s1.aligned n ∧ u1.aligned n ∧ s1.sameLists u1 :=
  ⟨by unfold FifteenFields; decide,
    MGH_LM_Get_Channel_Info_lists _ _ _ (by unfold FifteenFields; decide)⟩

end BabyMEGInfo

namespace MNE_BROWSE_RAW_QT

/-- C22: `writeToLog` displays the message exactly when its level is at most the
current log level and otherwise leaves the window as it is; a displayed error
is inserted behind `Error:`, a warning behind `Warning:`, any other kind as it
is, and a line break follows. -/
theorem writeToLog_displays_iff (w : MainWindow) (logMsg : String) (lgknd : LogKind)
    (lglvl : Int) :
    (lglvl ≤ w.m_eLogLevelCurrent →
      (writeToLog w logMsg lgknd lglvl).m_pTextBrowser_Log =
        w.m_pTextBrowser_Log ++ [.insertHtml (logHtml logMsg lgknd), .insertPlainText "\n"]) ∧
    (¬ lglvl ≤ w.m_eLogLevelCurrent → writeToLog w logMsg lgknd lglvl = w) ∧
    ((writeToLog w logMsg lgknd lglvl).m_pTextBrowser_Log ≠ w.m_pTextBrowser_Log ↔
      lglvl ≤ w.m_eLogLevelCurrent) ∧
    logHtml logMsg ._LogKndError = "<font color=red><b>Error:</b> " ++ logMsg ++ "</font>" ∧
    logHtml logMsg ._LogKndWarning =
      "<font color=blue><b>Warning:</b> " ++ logMsg ++ "</font>" ∧
    logHtml logMsg ._LogKndMessage = logMsg := by
  refine ⟨?_, ?_, ?_, rfl, rfl, rfl⟩
  · intro h
    simp [writeToLog, h]
  · intro h
    simp [writeToLog, h]
  · by_cases h : lglvl ≤ w.m_eLogLevelCurrent
    · simp [writeToLog, h]
    · simp [writeToLog, h]

theorem writeToLog_displays_iff_witness :
    ((1 : Int) ≤ 2 ∧ ¬ (3 : Int) ≤ 2) ∧
    (writeToLog { m_eLogLevelCurrent := 2 } "no file" ._LogKndError 1).m_pTextBrowser_Log =
      [.insertHtml "<font color=red><b>Error:</b> no file</font>", .insertPlainText "\n"] ∧
    writeToLog { m_eLogLevelCurrent := 2 } "no file" ._LogKndError 3 =
      { m_eLogLevelCurrent := 2 } :=
  ⟨by decide,
    (writeToLog_displays_iff { m_eLogLevelCurrent := 2 } "no file" ._LogKndError 1).1
      (by decide),
    (writeToLog_displays_iff { m_eLogLevelCurrent := 2 } "no file" ._LogKndError 3).2.1
      (by decide)⟩

end MNE_BROWSE_RAW_QT
